import Mathlib

/-!
# Verification of the bank-statement transaction pipeline

A shallow embedding of the transaction normalization / hashing / balance
reconstruction pipeline of this repository (`utils.py`, `main_main.py`) and
proofs about it.  DataFrames are modelled as lists of named, dtyped columns of
optional values; machine floats are modelled as exact rationals; Python
exceptions are modelled with `Except`.
-/

namespace BSA

/-! ## Python string primitives -/

/-- Python `str.strip()`: drop leading and trailing whitespace. -/
def pyStrip (s : String) : String :=
  String.mk (((s.toList.dropWhile Char.isWhitespace).reverse.dropWhile Char.isWhitespace).reverse)

/-- Python `str.lower()` (ASCII scope). -/
def pyLower (s : String) : String :=
  String.mk (s.toList.map Char.toLower)

def pySplitGo : List Char → List Char → List String
  | [], acc => if acc.isEmpty then [] else [String.mk acc.reverse]
  | c :: rest, acc =>
    if c.isWhitespace then
      if acc.isEmpty then pySplitGo rest [] else String.mk acc.reverse :: pySplitGo rest []
    else pySplitGo rest (c :: acc)

/-- Python `str.split()` with no argument: split on runs of whitespace. -/
def pySplit (s : String) : List String := pySplitGo s.toList []

/-- Python `str.lstrip(chars)`: drop leading characters belonging to the set. -/
def pyLstripSet (cs : List Char) (s : String) : String :=
  String.mk (s.toList.dropWhile (fun c => cs.contains c))

/-- Python `str.rstrip(chars)`: drop trailing characters belonging to the set. -/
def pyRstripSet (cs : List Char) (s : String) : String :=
  String.mk ((s.toList.reverse.dropWhile (fun c => cs.contains c)).reverse)

def pad2 (n : Nat) : String := if n < 10 then "0" ++ toString n else toString n

def pad4 (n : Nat) : String :=
  if n < 10 then "000" ++ toString n
  else if n < 100 then "00" ++ toString n
  else if n < 1000 then "0" ++ toString n
  else toString n

/-- ISO rendering of a calendar date, as Python `str(datetime.date(y, m, d))`. -/
def isoDate (y m d : Nat) : String := pad4 y ++ "-" ++ pad2 m ++ "-" ++ pad2 d

/-! ## Calendar arithmetic -/

def isLeapYear (y : Nat) : Bool := (y % 4 == 0 && y % 100 != 0) || y % 400 == 0

def daysInMonth (y m : Nat) : Nat :=
  if m == 2 then (if isLeapYear y then 29 else 28)
  else if m == 4 || m == 6 || m == 9 || m == 11 then 30
  else 31

def validDate (y m d : Nat) : Bool :=
  1 ≤ y && y ≤ 9999 && 1 ≤ m && m ≤ 12 && 1 ≤ d && d ≤ daysInMonth y m

/-- Full English month name, as pandas `Series.dt.strftime("%B")`. -/
def monthName (m : Nat) : String :=
  ["January", "February", "March", "April", "May", "June", "July",
   "August", "September", "October", "November", "December"].getD (m - 1) ""

def monthAbbrevs : List String :=
  ["jan", "feb", "mar", "apr", "may", "jun", "jul", "aug", "sep", "oct", "nov", "dec"]

/-- Sakamoto's algorithm: day of week (0 = Sunday) of a Gregorian date. -/
def dayOfWeekNum (y m d : Nat) : Nat :=
  let t : List Nat := [0, 3, 2, 5, 0, 3, 5, 1, 4, 6, 2, 4]
  let y2 := if m < 3 then y - 1 else y
  (y2 + y2 / 4 + y2 / 400 + t.getD (m - 1) 0 + d - y2 / 100) % 7

/-- English day-of-week name, as pandas `Series.dt.day_name()`. -/
def dayOfWeekName (y m d : Nat) : String :=
  ["Sunday", "Monday", "Tuesday", "Wednesday", "Thursday", "Friday", "Saturday"].getD
    (dayOfWeekNum y m d) ""

/-! ## MD5 (words are naturals reduced mod 2^32), as `hashlib.md5` -/

def w32 : Nat := 4294967296

def add32 (a b : Nat) : Nat := (a + b) % w32

def not32 (a : Nat) : Nat := a ^^^ 4294967295

def rotl32 (x s : Nat) : Nat := ((x <<< s) ||| (x >>> (32 - s))) % w32

def md5K : List Nat :=
  [0xd76aa478, 0xe8c7b756, 0x242070db, 0xc1bdceee,
   0xf57c0faf, 0x4787c62a, 0xa8304613, 0xfd469501,
   0x698098d8, 0x8b44f7af, 0xffff5bb1, 0x895cd7be,
   0x6b901122, 0xfd987193, 0xa679438e, 0x49b40821,
   0xf61e2562, 0xc040b340, 0x265e5a51, 0xe9b6c7aa,
   0xd62f105d, 0x02441453, 0xd8a1e681, 0xe7d3fbc8,
   0x21e1cde6, 0xc33707d6, 0xf4d50d87, 0x455a14ed,
   0xa9e3e905, 0xfcefa3f8, 0x676f02d9, 0x8d2a4c8a,
   0xfffa3942, 0x8771f681, 0x6d9d6122, 0xfde5380c,
   0xa4beea44, 0x4bdecfa9, 0xf6bb4b60, 0xbebfbc70,
   0x289b7ec6, 0xeaa127fa, 0xd4ef3085, 0x04881d05,
   0xd9d4d039, 0xe6db99e5, 0x1fa27cf8, 0xc4ac5665,
   0xf4292244, 0x432aff97, 0xab9423a7, 0xfc93a039,
   0x655b59c3, 0x8f0ccc92, 0xffeff47d, 0x85845dd1,
   0x6fa87e4f, 0xfe2ce6e0, 0xa3014314, 0x4e0811a1,
   0xf7537e82, 0xbd3af235, 0x2ad7d2bb, 0xeb86d391]

def md5S : List Nat :=
  [7, 12, 17, 22, 7, 12, 17, 22, 7, 12, 17, 22, 7, 12, 17, 22,
   5, 9, 14, 20, 5, 9, 14, 20, 5, 9, 14, 20, 5, 9, 14, 20,
   4, 11, 16, 23, 4, 11, 16, 23, 4, 11, 16, 23, 4, 11, 16, 23,
   6, 10, 15, 21, 6, 10, 15, 21, 6, 10, 15, 21, 6, 10, 15, 21]

/-- One MD5 round step; `M` fetches the current chunk's words. -/
def md5step (M : Nat → Nat) (i : Nat) (st : Nat × Nat × Nat × Nat) : Nat × Nat × Nat × Nat :=
  let a := st.1
  let b := st.2.1
  let c := st.2.2.1
  let d := st.2.2.2
  let fg : Nat × Nat :=
    if i < 16 then ((b &&& c) ||| (not32 b &&& d), i)
    else if i < 32 then ((d &&& b) ||| (not32 d &&& c), (5 * i + 1) % 16)
    else if i < 48 then (b ^^^ c ^^^ d, (3 * i + 5) % 16)
    else (c ^^^ (b ||| not32 d), (7 * i) % 16)
  let f2 := (fg.1 + a + md5K.getD i 0 + M fg.2) % w32
  (d, add32 b (rotl32 f2 (md5S.getD i 0)), b, c)

def md5rounds (M : Nat → Nat) : Nat → Nat → Nat × Nat × Nat × Nat → Nat × Nat × Nat × Nat
  | 0, _, st => st
  | fuel + 1, i, st => md5rounds M fuel (i + 1) (md5step M i st)

/-- Little-endian 32-bit word assembled from four bytes of a chunk. -/
def md5word (chunk : List Nat) (g : Nat) : Nat :=
  chunk.getD (4 * g) 0 + 256 * (chunk.getD (4 * g + 1) 0 +
    256 * (chunk.getD (4 * g + 2) 0 + 256 * chunk.getD (4 * g + 3) 0))

def md5chunk (st : Nat × Nat × Nat × Nat) (chunk : List Nat) : Nat × Nat × Nat × Nat :=
  let r := md5rounds (md5word chunk) 64 0 st
  (add32 st.1 r.1, add32 st.2.1 r.2.1, add32 st.2.2.1 r.2.2.1, add32 st.2.2.2 r.2.2.2)

def chunks64Go : Nat → List Nat → List (List Nat)
  | 0, _ => []
  | _, [] => []
  | fuel + 1, l => l.take 64 :: chunks64Go fuel (l.drop 64)

def chunks64 (l : List Nat) : List (List Nat) := chunks64Go l.length l

/-- Little-endian byte rendering of `n` over `k` bytes. -/
def leBytes (k n : Nat) : List Nat := (List.range k).map (fun i => (n >>> (8 * i)) % 256)

/-- MD5 padding: `0x80`, zeros up to 56 mod 64, then the 64-bit LE bit length. -/
def md5pad (msg : List Nat) : List Nat :=
  let len := msg.length
  let zeros := (119 - len % 64) % 64
  msg ++ [0x80] ++ List.replicate zeros 0 ++ leBytes 8 ((8 * len) % (2 ^ 64))

def hexDigit (n : Nat) : Char := if n < 10 then Char.ofNat (48 + n) else Char.ofNat (87 + n)

def byteHex (b : Nat) : List Char := [hexDigit (b / 16), hexDigit (b % 16)]

/-- MD5 digest of a byte sequence, rendered as the 32-character lowercase
hexadecimal string that `hashlib.md5(...).hexdigest()` produces. -/
def md5hex (msg : List Nat) : String :=
  let st0 : Nat × Nat × Nat × Nat := (0x67452301, 0xefcdab89, 0x98badcfe, 0x10325476)
  let r := (chunks64 (md5pad msg)).foldl md5chunk st0
  String.mk (([r.1, r.2.1, r.2.2.1, r.2.2.2].map (leBytes 4)).flatten.map byteHex).flatten

/-- UTF-8 encoding of one character. -/
def utf8Char (c : Char) : List Nat :=
  let n := c.toNat
  if n < 0x80 then [n]
  else if n < 0x800 then [0xC0 ||| (n >>> 6), 0x80 ||| (n &&& 0x3F)]
  else if n < 0x10000 then
    [0xE0 ||| (n >>> 12), 0x80 ||| ((n >>> 6) &&& 0x3F), 0x80 ||| (n &&& 0x3F)]
  else [0xF0 ||| (n >>> 18), 0x80 ||| ((n >>> 12) &&& 0x3F),
        0x80 ||| ((n >>> 6) &&& 0x3F), 0x80 ||| (n &&& 0x3F)]

/-- UTF-8 bytes of a string, as Python `str.encode("utf-8")`. -/
def utf8Bytes (s : String) : List Nat := (s.toList.map utf8Char).flatten

/-! ## The data model: cell values, dtypes, columns, frames -/

/-- A cell of a DataFrame.  `na` stands for every pandas missing value
(`NaN`, `NaT`, `None`); numbers are modelled as exact rationals; normalized
datetimes as calendar dates. -/
inductive Value where
  | na : Value
  | str : String → Value
  | num : ℚ → Value
  | bool : Bool → Value
  | date : Nat → Nat → Nat → Value
deriving DecidableEq

/-- The column dtypes the pipeline distinguishes: `object` columns are the
ones `.str`-accessor operations apply to; the others are pass-through for
string stripping. -/
inductive Dtype where
  | object : Dtype
  | datetime64 : Dtype
  | float64 : Dtype
  | boolean : Dtype
  | int64n : Dtype
deriving DecidableEq

/-- Python exceptions that the modelled code can raise. -/
inductive PyErr where
  | keyError : PyErr
  | attributeError : PyErr
  | valueError : PyErr
  | typeError : PyErr
deriving DecidableEq

structure Col where
  name : String
  dtype : Dtype
  vals : List Value
deriving DecidableEq

/-- A DataFrame: an ordered list of named columns. -/
structure Frame where
  cols : List Col
deriving DecidableEq

def emptyFrame : Frame := ⟨[]⟩

def findCol (nm : String) (f : Frame) : Option Col := f.cols.find? (fun c => c.name == nm)

def hasCol (nm : String) (f : Frame) : Bool := f.cols.any (fun c => c.name == nm)

/-- Number of rows (length of the leading column), as `len(df)`. -/
def nRows (f : Frame) : Nat :=
  match f.cols with
  | [] => 0
  | c :: _ => c.vals.length

/-- pandas `df.empty`: true iff either axis has length 0. -/
def frameEmpty (f : Frame) : Bool := f.cols.isEmpty || nRows f == 0

/-- The cell at row `i` of the (first) column named `nm`; absent values and
absent columns read as `na`. -/
def valueAt (f : Frame) (nm : String) (i : Nat) : Value :=
  match findCol nm f with
  | some c => c.vals.getD i .na
  | none => .na

def colVals (nm : String) (f : Frame) : List Value :=
  match findCol nm f with
  | some c => c.vals
  | none => []

/-- Row `i` of the frame, one cell per column. -/
def rowAt (f : Frame) (i : Nat) : List Value := f.cols.map (fun c => c.vals.getD i .na)

/-- All rows of the frame in order. -/
def frameRows (f : Frame) : List (List Value) := (List.range (nRows f)).map (rowAt f)

/-- Every column has the same length: every real pandas frame is rectangular. -/
def rectangular (f : Frame) : Prop := ∀ c ∈ f.cols, c.vals.length = nRows f

instance (f : Frame) : Decidable (rectangular f) := by
  unfold rectangular; infer_instance

/-! ## Numeric and date parsing -/

def natOfDigits (l : List Char) : Nat := l.foldl (fun a c => a * 10 + (c.toNat - 48)) 0

def parseNat (s : String) : Option Nat :=
  if s.toList.isEmpty || !s.toList.all Char.isDigit then none else some (natOfDigits s.toList)

/-- Exact rational addition, written through `mkRat` so that it evaluates by
kernel reduction (the library's `Rat.add` is `@[irreducible]`); `ratAdd_eq`
identifies it with `+`. -/
def ratAdd (a b : ℚ) : ℚ := mkRat (a.num * (b.den : Int) + b.num * (a.den : Int)) (a.den * b.den)

/-- Exact rational negation through `mkRat`; `ratNeg_eq` identifies it
with `-·`. -/
def ratNeg (a : ℚ) : ℚ := mkRat (-a.num) a.den

/-- Exact rational subtraction through `mkRat`; `ratSub_eq` identifies it
with `-`. -/
def ratSub (a b : ℚ) : ℚ := ratAdd a (ratNeg b)

/-- Decimal number parsing as `pd.to_numeric` accepts plain literals:
optional sign, integer part, optional fractional part (the value
`±(ip.fp) = ±(ip·10^|fp| + fp)/10^|fp|`). -/
def parseDec (s : String) : Option ℚ :=
  let l := s.toList
  let sgnl : Bool × List Char :=
    match l with
    | '-' :: r => (true, r)
    | '+' :: r => (false, r)
    | _ => (false, l)
  let ip := sgnl.2.takeWhile Char.isDigit
  let rest := sgnl.2.dropWhile Char.isDigit
  let frac : Option (List Char) :=
    match rest with
    | [] => some []
    | '.' :: r => if r.all Char.isDigit then some r else none
    | _ => none
  match frac with
  | none => none
  | some fp =>
    if ip.isEmpty && fp.isEmpty then none
    else
      let mag : Nat := natOfDigits ip * 10 ^ fp.length + natOfDigits fp
      some (mkRat (if sgnl.1 then -(mag : Int) else (mag : Int)) (10 ^ fp.length))

/-- Date-string parsing for `pd.to_datetime(..., errors="coerce")`, restricted
to the layouts this pipeline receives: ISO `YYYY-MM-DD` and the US
`MM-DD-YYYY` / `MM/DD/YYYY` the extraction prompt requests.  Anything else is
unparseable and coerces to `NaT`. -/
def parseDateStr (s : String) : Option (Nat × Nat × Nat) :=
  let parts := if s.toList.contains '/' then s.splitOn "/" else s.splitOn "-"
  match parts with
  | [a, b, c] =>
    if a.length == 4 then do
      let y ← parseNat a
      let m ← parseNat b
      let d ← parseNat c
      if validDate y m d then some (y, m, d) else none
    else if c.length == 4 then do
      let m ← parseNat a
      let d ← parseNat b
      let y ← parseNat c
      if validDate y m d then some (y, m, d) else none
    else none
  | _ => none

/-! ## Type Normalizer: `utils.apply_data_types` -/

/-- `pd.to_datetime(value, errors="coerce")` on one cell: datetimes pass
through, parseable strings become dates, everything unparseable or missing
becomes `NaT` (never an exception, never a default date). -/
def pdToDatetime : Value → Value
  | .date y m d => .date y m d
  | .str s =>
    match parseDateStr (pyStrip s) with
    | some (y, m, d) => .date y m d
    | none => .na
  | _ => .na

/-- `pd.to_numeric(value, errors="coerce")` on one cell. -/
def pdToNumeric : Value → Value
  | .num q => .num q
  | .bool b => .num (if b then 1 else 0)
  | .str s =>
    match parseDec (pyStrip s) with
    | some q => .num q
    | none => .na
  | _ => .na

/-- Python `str(value)` for the cell values the pipeline manipulates.
Missing cells stringify to `"nan"` (the rendering of `float("nan")`, which is
what a missing object-column entry is after normalization).  Integral
rationals render like Python ints; the remaining numeric / datetime renderings
are schematic and are never reached by the claims. -/
def pyStr : Value → String
  | .na => "nan"
  | .str s => s
  | .bool true => "True"
  | .bool false => "False"
  | .num q => if q.den == 1 then toString q.num else toString q
  | .date y m d => isoDate y m d ++ " 00:00:00"

/-- The `is_subscription` lambda of `apply_data_types`:
`str(x).lower() in ['true','1','t','y','yes'] if pd.notna(x) else False`. -/
def boolNormVal : Value → Value
  | .na => .bool false
  | v => .bool (["true", "1", "t", "y", "yes"].contains (pyLower (pyStr v)))

/-- One cell under `Series.str.strip()`: strings are stripped, every
non-string (missing values included) becomes `NaN`. -/
def stripVal : Value → Value
  | .str s => .str (pyStrip s)
  | _ => .na

/-- `df.columns = df.columns.str.strip()`. -/
def stripColNames (f : Frame) : Frame :=
  ⟨f.cols.map (fun c => { c with name := pyStrip c.name })⟩

/-- `df[nm] = g(df[nm])` — rewrite every column carrying the name. -/
def mapColsNamed (nm : String) (g : Col → Col) (f : Frame) : Frame :=
  ⟨f.cols.map (fun c => if c.name == nm then g c else c)⟩

/-- `if nm in df.columns: df[nm] = g(df[nm])`. -/
def applyIfPresent (nm : String) (g : Col → Col) (f : Frame) : Frame :=
  if hasCol nm f then mapColsNamed nm g f else f

def toDatetimeCol (c : Col) : Col :=
  { c with dtype := .datetime64, vals := c.vals.map pdToDatetime }

/-- The date-coercion loop over `['transaction_date', 'posting_date']`. -/
def toDatetimeStage (f : Frame) : Frame :=
  applyIfPresent "posting_date" toDatetimeCol (applyIfPresent "transaction_date" toDatetimeCol f)

def toNumericCol (c : Col) : Col :=
  { c with dtype := .float64, vals := c.vals.map pdToNumeric }

/-- The numeric-coercion loop over `['amount_spent', 'credit_limit',
'available_credit']`. -/
def toNumericStage (f : Frame) : Frame :=
  applyIfPresent "available_credit" toNumericCol
    (applyIfPresent "credit_limit" toNumericCol
      (applyIfPresent "amount_spent" toNumericCol f))

/-- The `is_subscription` boolean normalization with `.astype(bool)`. -/
def subscriptionStage (f : Frame) : Frame :=
  applyIfPresent "is_subscription"
    (fun c => { c with dtype := .boolean, vals := c.vals.map boolNormVal }) f

/-- One row of a masked derived-column assignment on an existing column: a
valid-date row is overwritten with the derived value, any other row keeps its
old value. -/
def updFn (fn : Nat → Nat → Nat → Value) (t old : Value) : Value :=
  match t with
  | .date y m d => fn y m d
  | _ => old

/-- One row of a masked derived-column assignment creating a fresh column: a
valid-date row gets the derived value, any other row gets `NA`. -/
def derFn (fn : Nat → Nat → Nat → Value) (t : Value) : Value :=
  match t with
  | .date y m d => fn y m d
  | _ => Value.na

/-- `df.loc[valid_dates.index, nm] = fn(valid_dates)` on an existing column:
rows with a valid date are overwritten, the rest keep their value. -/
def updCol (tdv : List Value) (fn : Nat → Nat → Nat → Value) (c : Col) : Col :=
  { c with vals := List.zipWith (updFn fn) tdv c.vals }

/-- `df.loc[valid_dates.index, nm] = fn(valid_dates)` creating a fresh column:
valid-date rows get the derived value, the rest get `NA`. -/
def newDerivedCol (tdv : List Value) (nm : String) (dt : Dtype)
    (fn : Nat → Nat → Nat → Value) : Col :=
  { name := nm, dtype := dt, vals := tdv.map (derFn fn) }

def setDerived (tdv : List Value) (nm : String) (dt : Dtype)
    (fn : Nat → Nat → Nat → Value) (f : Frame) : Frame :=
  if hasCol nm f then ⟨f.cols.map (fun c => if c.name == nm then updCol tdv fn c else c)⟩
  else ⟨f.cols ++ [newDerivedCol tdv nm dt fn]⟩

/-- The five derived calendar assignments, in source order (`year`, `month`,
`day`, `month_name`, `day_of_week`); `year`/`month`/`day` come from
`.astype('Int64')` (nullable-integer dtype), `month_name`/`day_of_week` are
object (string) columns. -/
def deriveChain (tdv : List Value) (f : Frame) : Frame :=
  setDerived tdv "day_of_week" .object (fun y m d => .str (dayOfWeekName y m d))
    (setDerived tdv "month_name" .object (fun _ m _ => .str (monthName m))
      (setDerived tdv "day" .int64n (fun _ _ d => .num d)
        (setDerived tdv "month" .int64n (fun _ m _ => .num m)
          (setDerived tdv "year" .int64n (fun y _ _ => .num y) f))))

/-- The derived-calendar stage, guarded by
`'transaction_date' in df.columns and is_datetime64_any_dtype(...)`. -/
def deriveStage (f : Frame) : Frame :=
  match findCol "transaction_date" f with
  | some c => if c.dtype == .datetime64 then deriveChain c.vals f else f
  | none => f

/-- What the object-stripping loop does to one column: the `.str.strip()`
rewrite applies exactly to object-dtyped columns. -/
def stripColOp (c : Col) : Col :=
  if c.dtype == .object then { c with vals := c.vals.map stripVal } else c

/-- `for col in df.select_dtypes(['object']).columns: df[col] = df[col].str.strip()`. -/
def stripObjectsStage (f : Frame) : Frame :=
  ⟨f.cols.map stripColOp⟩

/-- `utils.apply_data_types`: the single source of truth for cleaning and type
conversion. -/
def apply_data_types (f : Frame) : Frame :=
  if frameEmpty f then f
  else
    stripObjectsStage (deriveStage (subscriptionStage
      (toNumericStage (toDatetimeStage (stripColNames f)))))

/-! ## Transaction Hasher: `utils.create_transaction_hash` -/

/-- Two-decimal fixed formatting of a number, Python `f"{x:.2f}"` (round half
to even), computed on the numerator/denominator with integer arithmetic:
`q·100 = fl + rem/d` with `0 ≤ rem < d`, rounded up when `rem/d > 1/2`
(i.e. `2·rem > d`) and to the even neighbour on an exact tie. -/
def fmt2 (q : ℚ) : String :=
  let n : Int := q.num * 100
  let d : Int := (q.den : Int)
  let fl : Int := Int.fdiv n d
  let rem : Int := n - fl * d
  let rounded : Int :=
    if 2 * rem < d then fl
    else if d < 2 * rem then fl + 1
    else if fl % 2 == 0 then fl else fl + 1
  let m := rounded.natAbs
  (if rounded < 0 then "-" else "") ++ toString (m / 100) ++ "." ++ pad2 (m % 100)

/-- The row lambda `generate_hash` of `create_transaction_hash`:
`str(row['transaction_date'].date()) if notna else ''`, then
`str(row['activity_description']).lower().strip()`, then
`f"{row['amount_spent']:.2f}" if notna else ''`, joined with `-`, UTF-8
encoded and MD5-digested.  Calling `.date()` on a present non-datetime raises
`AttributeError`; `:.2f`-formatting a present non-number raises. -/
def generate_hash (dv sv av : Value) : Except PyErr String := do
  let dateStr ← match dv with
    | .date y m d => Except.ok (isoDate y m d)
    | .na => Except.ok ""
    | _ => Except.error PyErr.attributeError
  let descStr := pyStrip (pyLower (pyStr sv))
  let amountStr ← match av with
    | .num q => Except.ok (fmt2 q)
    | .bool b => Except.ok (fmt2 (if b then 1 else 0))
    | .na => Except.ok ""
    | .str _ => Except.error PyErr.valueError
    | .date _ _ _ => Except.error PyErr.typeError
  Except.ok (md5hex (utf8Bytes (dateStr ++ "-" ++ descStr ++ "-" ++ amountStr)))

/-- Replace every column named `nm`, or append a fresh one at the end. -/
def putCol (f : Frame) (c : Col) : Frame :=
  if hasCol c.name f then ⟨f.cols.map (fun c0 => if c0.name == c.name then c else c0)⟩
  else ⟨f.cols ++ [c]⟩

/-- `utils.create_transaction_hash`: adds the `TransactionHash` column; on an
empty frame it adds an empty string-dtyped column; otherwise row-wise hashing
(raising `KeyError` when a required column is missing). -/
def create_transaction_hash (f : Frame) : Except PyErr Frame :=
  if frameEmpty f then
    .ok (putCol f { name := "TransactionHash", dtype := .object,
                    vals := List.replicate (nRows f) Value.na })
  else
    match findCol "transaction_date" f, findCol "activity_description" f,
        findCol "amount_spent" f with
    | some td, some dc, some am => do
      let hs ← (List.range (nRows f)).mapM (fun i =>
        generate_hash (td.vals.getD i .na) (dc.vals.getD i .na) (am.vals.getD i .na))
      .ok (putCol f { name := "TransactionHash", dtype := .object, vals := hs.map .str })
    | _, _, _ => .error PyErr.keyError

/-! ## Running Balance Reconstructor: `utils.calculate_running_credit` -/

def valRank : Value → Nat
  | .date _ _ _ => 0
  | .str _ => 1
  | .num _ => 2
  | .bool _ => 3
  | .na => 4

/-- Ascending comparison on `transaction_date` keys with missing values last
(`sort_values` default `na_position='last'`).  Dates compare
lexicographically; the tie order among equal keys is a modelling choice (the
source delegates it to numpy's unstable quicksort). -/
def dateKeyLe (a b : Value) : Bool :=
  match a, b with
  | .date y1 m1 d1, .date y2 m2 d2 =>
    (y1 < y2) || (y1 == y2 && ((m1 < m2) || (m1 == m2 && d1 ≤ d2)))
  | _, _ => valRank a ≤ valRank b

/-- Insert into a sorted list, keeping earlier elements first on ties. -/
def insertLe {α : Type} (le : α → α → Bool) (a : α) : List α → List α
  | [] => [a]
  | b :: t => if le a b then a :: b :: t else b :: insertLe le a t

/-- Structural stable insertion sort (the embedding's model of the sorting
called by `sort_values`; the source delegates the actual tie order to numpy's
unstable quicksort). -/
def sortLe {α : Type} (le : α → α → Bool) : List α → List α
  | [] => []
  | a :: t => insertLe le a (sortLe le t)

/-- The row permutation chosen by
`df.sort_values(by='transaction_date', ascending=True)`. -/
def sortPermOf (n : Nat) (tdv : List Value) : List Nat :=
  sortLe (fun i j => dateKeyLe (tdv.getD i .na) (tdv.getD j .na)) (List.range n)

/-- `df.sort_values(by='transaction_date', ascending=True).reset_index(drop=True)`;
raises `KeyError` when the key column is missing. -/
def sortByDate (f : Frame) : Except PyErr Frame :=
  match findCol "transaction_date" f with
  | none => .error PyErr.keyError
  | some c =>
    let p := sortPermOf (nRows f) c.vals
    .ok ⟨f.cols.map (fun col => { col with vals := p.map (fun i => col.vals.getD i .na) })⟩

def firstValidIdxGo : Nat → List Value → Option Nat
  | _, [] => none
  | i, .na :: r => firstValidIdxGo (i + 1) r
  | i, _ :: _ => some i

/-- `Series.first_valid_index()` on a position-indexed series. -/
def firstValidIdx (l : List Value) : Option Nat := firstValidIdxGo 0 l

def asNum : Value → Option ℚ
  | .num q => some q
  | .bool b => some (if b then 1 else 0)
  | _ => none

/-- pandas `Series.cumsum()` on the numeric tail: missing entries stay
missing and are skipped by the running sum; a non-numeric entry raises. -/
def cumsumNum (acc : ℚ) : List Value → Except PyErr (List Value)
  | [] => .ok []
  | .na :: r => do
    let t ← cumsumNum acc r
    .ok (.na :: t)
  | v :: r =>
    match asNum v with
    | some q => do
      let t ← cumsumNum (ratAdd acc q) r
      .ok (.num (ratAdd acc q) :: t)
    | none => .error PyErr.typeError

def setColVals (nm : String) (vs : List Value) (f : Frame) : Frame :=
  ⟨f.cols.map (fun c => if c.name == nm then { c with vals := vs } else c)⟩

/-- `utils.calculate_running_credit`: early-returns the frame unchanged when
it is empty or lacks `amount_spent`/`available_credit`; otherwise sorts by
`transaction_date`, finds the first valid `available_credit` (the opening
balance) and overwrites the tail with `start_credit - cumsum(amount_spent)`. -/
def calculate_running_credit (f : Frame) : Except PyErr Frame :=
  if frameEmpty f || !hasCol "amount_spent" f || !hasCol "available_credit" f then .ok f
  else
    match sortByDate f with
    | .error e => .error e
    | .ok s =>
      match firstValidIdx (colVals "available_credit" s) with
      | none => .ok s
      | some i0 =>
        match asNum ((colVals "available_credit" s).getD i0 .na) with
        | none => .error PyErr.typeError
        | some b =>
          match cumsumNum 0 ((colVals "amount_spent" s).drop i0) with
          | .error e => .error e
          | .ok cums =>
            let newTail := cums.map (fun cv =>
              match cv with
              | .num c => Value.num (ratSub b c)
              | _ => Value.na)
            .ok (setColVals "available_credit"
              ((colVals "available_credit" s).take i0 ++ newTail) s)

/-! ## `main_main.parse_date_with_year` -/

/-- `datetime.strptime(..., "%b %d %Y")` on whitespace tokens: abbreviated
month name (case-insensitive), day, year; non-matching input is a
`ValueError` (here: `none`). -/
def strptimeBDY (parts : List String) : Option (Nat × Nat × Nat) :=
  match parts with
  | [b, d, y] => do
    let mi ← monthAbbrevs.findIdx? (fun a => a == pyLower b)
    let dn ← parseNat d
    let yn ← parseNat y
    if validDate yn (mi + 1) dn then some (yn, mi + 1, dn) else none
  | _ => none

/-- `main_main.parse_date_with_year(date_str, year=2025)`: splits the input,
parses `"%b %d %Y"` directly for three tokens or with the default year
appended otherwise; only `ValueError` is caught (becoming `pd.NaT`), so a
missing / non-string cell hits `.split()` and raises `AttributeError`. -/
def parse_date_with_year (v : Value) (year : Nat) : Except PyErr Value :=
  match v with
  | .str s =>
    let parts := pySplit s
    let parts2 := if parts.length == 3 then parts else parts ++ [toString year]
    match strptimeBDY parts2 with
    | some (y, m, d) => .ok (.date y m d)
    | none => .ok .na
  | _ => .error PyErr.attributeError

/-! ## JSON parsing: `json.loads` and the per-document extraction loop -/

inductive Json where
  | null : Json
  | jbool : Bool → Json
  | jnum : ℚ → Json
  | jstr : String → Json
  | jarr : List Json → Json
  | jobj : List (String × Json) → Json

def lbraceChar : Char := Char.ofNat 123

def rbraceChar : Char := Char.ofNat 125

def skipWs (l : List Char) : List Char :=
  l.dropWhile (fun c => c == ' ' || c == '\t' || c == '\n' || c == '\r')

def parseJStrGo : List Char → List Char → Option (String × List Char)
  | acc, '\"' :: r => some (String.mk acc.reverse, r)
  | acc, '\\' :: e :: r =>
    if e == '\"' || e == '\\' || e == '/' then parseJStrGo (e :: acc) r
    else if e == 'n' then parseJStrGo ('\n' :: acc) r
    else if e == 't' then parseJStrGo ('\t' :: acc) r
    else if e == 'r' then parseJStrGo ('\r' :: acc) r
    else if e == 'b' then parseJStrGo (Char.ofNat 8 :: acc) r
    else if e == 'f' then parseJStrGo (Char.ofNat 12 :: acc) r
    else none
  | acc, c :: r => if c == '\\' then none else parseJStrGo (c :: acc) r
  | _, [] => none

def parseJNum (l : List Char) : Option (Json × List Char) :=
  let sgnl : Bool × List Char :=
    match l with
    | '-' :: r => (true, r)
    | _ => (false, l)
  let ip := sgnl.2.takeWhile Char.isDigit
  let rest := sgnl.2.dropWhile Char.isDigit
  if ip.isEmpty then none
  else
    let fprest : Option (List Char × List Char) :=
      match rest with
      | '.' :: r =>
        let fp := r.takeWhile Char.isDigit
        if fp.isEmpty then none else some (fp, r.dropWhile Char.isDigit)
      | _ => some ([], rest)
    match fprest with
    | none => none
    | some (fp, r2) =>
      let mag : Nat := natOfDigits ip * 10 ^ fp.length + natOfDigits fp
      some (.jnum (mkRat (if sgnl.1 then -(mag : Int) else (mag : Int)) (10 ^ fp.length)), r2)

mutual

def parseJVal : Nat → List Char → Option (Json × List Char)
  | 0, _ => none
  | fuel + 1, l0 =>
    match skipWs l0 with
    | [] => none
    | c :: r =>
      if c == 'n' then
        match r with
        | 'u' :: 'l' :: 'l' :: r2 => some (.null, r2)
        | _ => none
      else if c == 't' then
        match r with
        | 'r' :: 'u' :: 'e' :: r2 => some (.jbool true, r2)
        | _ => none
      else if c == 'f' then
        match r with
        | 'a' :: 'l' :: 's' :: 'e' :: r2 => some (.jbool false, r2)
        | _ => none
      else if c == '\"' then (parseJStrGo [] r).map (fun p => (Json.jstr p.1, p.2))
      else if c == '[' then
        match skipWs r with
        | ']' :: r2 => some (.jarr [], r2)
        | r2 => parseJArr fuel r2 []
      else if c == lbraceChar then
        match skipWs r with
        | c2 :: r2 => if c2 == rbraceChar then some (.jobj [], r2) else parseJObj fuel (c2 :: r2) []
        | [] => none
      else if c == '-' || c.isDigit then parseJNum (c :: r)
      else none

def parseJArr : Nat → List Char → List Json → Option (Json × List Char)
  | 0, _, _ => none
  | fuel + 1, l, acc =>
    match parseJVal fuel l with
    | none => none
    | some (v, r) =>
      match skipWs r with
      | ',' :: r2 => parseJArr fuel r2 (acc ++ [v])
      | ']' :: r2 => some (.jarr (acc ++ [v]), r2)
      | _ => none

def parseJObj : Nat → List Char → List (String × Json) → Option (Json × List Char)
  | 0, _, _ => none
  | fuel + 1, l, acc =>
    match skipWs l with
    | [] => none
    | c :: r =>
      if c == '\"' then
        match parseJStrGo [] r with
        | none => none
        | some (k, r2) =>
          match skipWs r2 with
          | ':' :: r3 =>
            match parseJVal fuel r3 with
            | none => none
            | some (v, r4) =>
              match skipWs r4 with
              | [] => none
              | c2 :: r5 =>
                if c2 == ',' then parseJObj fuel r5 (acc ++ [(k, v)])
                else if c2 == rbraceChar then some (.jobj (acc ++ [(k, v)]), r5)
                else none
          | _ => none
      else none

end

/-- `json.loads`: parse one JSON document; trailing garbage or any syntax
error raises `JSONDecodeError` (here: `none`). -/
def json_loads (s : String) : Option Json :=
  match parseJVal (2 * s.length + 2) s.toList with
  | some (j, r) => if (skipWs r).isEmpty then some j else none
  | none => none

/-- `response.text.strip().lstrip('```json').rstrip('```')` — note Python's
`lstrip`/`rstrip` treat the argument as a character set. -/
def stripFences (t : String) : String :=
  pyRstripSet "```".toList (pyLstripSet "```json".toList (pyStrip t))

/-- One iteration of the per-document loop in
`utils.get_gemini_response_from_pdf_data`: fence-strip, `json.loads`, and
`all_transactions.extend(...)` only when the result is a list; every failure
is caught and the loop continues, so a bad document contributes nothing. -/
def docContribution (resp : String) : List Json :=
  match json_loads (stripFences resp) with
  | some (.jarr xs) => xs
  | _ => []

/-- The whole per-document loop: aggregate the contributions in order. -/
def processResponses (resps : List String) : List Json :=
  resps.foldl (fun acc r => acc ++ docContribution r) []

/-- One JSON scalar as a pandas cell (`pd.DataFrame(list_of_dicts)`); nested
arrays / objects are outside the modelled scope and read as missing. -/
def jsonToValue : Json → Value
  | .null => .na
  | .jbool b => .bool b
  | .jnum q => .num q
  | .jstr s => .str s
  | _ => .na

/-- Column order of `pd.DataFrame(records)`: keys in order of first
appearance. -/
def recordKeys (records : List Json) : List String :=
  records.foldl (fun acc r =>
    match r with
    | .jobj kvs => kvs.foldl (fun a kv => if a.contains kv.1 then a else a ++ [kv.1]) acc
    | _ => acc) []

/-- pandas dtype inference for a freshly built column. -/
def inferDtype (vs : List Value) : Dtype :=
  if vs.all (fun v =>
      match v with
      | .num _ => true
      | .na => true
      | _ => false) &&
     vs.any (fun v =>
      match v with
      | .num _ => true
      | _ => false) then .float64
  else if !vs.isEmpty && vs.all (fun v =>
      match v with
      | .bool _ => true
      | _ => false) then .boolean
  else .object

/-- `pd.DataFrame(records)` for a list of JSON field bags. -/
def frameOfRecords (records : List Json) : Frame :=
  ⟨(recordKeys records).map (fun k =>
    let vs := records.map (fun r =>
      match r with
      | .jobj kvs =>
        match kvs.find? (fun kv => kv.1 == k) with
        | some kv => jsonToValue kv.2
        | none => Value.na
      | _ => Value.na)
    { name := k, dtype := inferDtype vs, vals := vs })⟩

/-- `utils.convert_gemini_response_to_dataframe`: empty / non-list / malformed
responses produce an empty frame (only `JSONDecodeError` is caught); a list
response runs the full pipeline. -/
def convert_gemini_response_to_dataframe (txt : String) : Except PyErr Frame :=
  if txt == "" then .ok emptyFrame
  else
    match json_loads txt with
    | none => .ok emptyFrame
    | some j =>
      match j with
      | .jarr [] => .ok emptyFrame
      | .jarr xs => do
        let f2 ← create_transaction_hash (apply_data_types (frameOfRecords xs))
        calculate_running_credit f2
      | _ => .ok emptyFrame

/-! ## Deduplication Engine -/

/-- Modelled from the spec: the repository's Deduplication Engine (spec §4.4)
has no implementation under `src/` — only the fingerprint column and the
storage uniqueness guidance exist — so it is modelled from the spec's words:
given the user's existing corpus of fingerprints and an incoming batch of
hashed records, partition the batch (in order) into `to_insert` (fingerprint
not in the corpus) and `skipped` (fingerprint already present), plus the
count of skipped duplicates; the corpus itself is read-only. -/
def dedupEngine (corpus : List String) :
    List (String × List Value) → List (String × List Value) × List (String × List Value) × Nat
  | [] => ([], [], 0)
  | t :: rest =>
    let r := dedupEngine corpus rest
    if corpus.contains t.1 then (r.1, t :: r.2.1, r.2.2 + 1)
    else (t :: r.1, r.2.1, r.2.2)

/-! ## Spec-side definitions used for comparison -/

/-- The canonical string exactly as the spec's Transaction Hasher contract
words it: `"<ISO-date-or-empty>-<lowercased-trimmed-description>-<amount
formatted to exactly two decimal places, or empty if absent>"`, with an absent
description contributing the empty string. -/
def specCanonical (dv sv av : Value) : String :=
  (match dv with
   | .date y m d => isoDate y m d
   | _ => "") ++ "-" ++
  (match sv with
   | .str s => pyStrip (pyLower s)
   | _ => "") ++ "-" ++
  (match av with
   | .num q => fmt2 q
   | _ => "")

/-- The spec-side fingerprint: MD5 hex digest of the UTF-8 canonical string. -/
def specFingerprint (dv sv av : Value) : String := md5hex (utf8Bytes (specCanonical dv sv av))

/-- The canonical string the code actually hashes: as `specCanonical` except
that an absent description stringifies to `"nan"` before lowercasing and
trimming. -/
def codeCanonical (dv sv av : Value) : String :=
  (match dv with
   | .date y m d => isoDate y m d
   | _ => "") ++ "-" ++
  pyStrip (pyLower (pyStr sv)) ++ "-" ++
  (match av with
   | .num q => fmt2 q
   | .bool b => fmt2 (if b then 1 else 0)
   | _ => "")

/-! ## Auxiliary definitions used by the development -/

/-- The five derived calendar column names, in assignment order. -/
def derivedNames : List String := ["year", "month", "day", "month_name", "day_of_week"]

/-- The frame obtained by reindexing every column of `f` along `p`. -/
def reindexFrame (f : Frame) (p : List Nat) : Frame :=
  ⟨f.cols.map (fun col => { col with vals := p.map (fun i => col.vals.getD i Value.na) })⟩

/-- The list of running partial sums `acc + q1, acc + q1 + q2, ...`. -/
def partialSums (acc : ℚ) : List ℚ → List ℚ
  | [] => []
  | q :: r => (acc + q) :: partialSums (acc + q) r

/-- A one-column frame lacking `available_credit`. -/
def c10frame : Frame := ⟨[⟨"amount_spent", Dtype.float64, [Value.num 3]⟩]⟩

/-- The out-of-date-order frame with no known balance used against C5. -/
def c5frame : Frame :=
  ⟨[⟨"transaction_date", Dtype.datetime64, [Value.date 2024 1 2, Value.date 2024 1 1]⟩,
    ⟨"amount_spent", Dtype.float64, [Value.num 20, Value.num 10]⟩,
    ⟨"available_credit", Dtype.float64, [Value.na, Value.na]⟩]⟩

/-- The out-of-order three-row statement frame used as the C2 witness. -/
def c2frame : Frame :=
  ⟨[⟨"transaction_date", Dtype.datetime64,
      [Value.date 2024 1 2, Value.date 2024 1 1, Value.date 2024 1 3]⟩,
    ⟨"amount_spent", Dtype.float64, [Value.num 20, Value.num 10, Value.num 5]⟩,
    ⟨"available_credit", Dtype.float64, [Value.na, Value.num 100, Value.na]⟩]⟩

/-- A two-row raw frame with one parseable and one garbage date, used as the
C8 witness. -/
def c8frame : Frame :=
  ⟨[⟨"transaction_date", Dtype.object, [Value.str "01-05-2024", Value.str "garbage"]⟩,
    ⟨"activity_description", Dtype.object, [Value.str "UBER", Value.str "LYFT"]⟩]⟩

/-- `c2frame` sorted ascending by `transaction_date`. -/
def c2sorted : Frame :=
  ⟨[⟨"transaction_date", Dtype.datetime64,
      [Value.date 2024 1 1, Value.date 2024 1 2, Value.date 2024 1 3]⟩,
    ⟨"amount_spent", Dtype.float64, [Value.num 10, Value.num 20, Value.num 5]⟩,
    ⟨"available_credit", Dtype.float64, [Value.num 100, Value.na, Value.na]⟩]⟩

/-! ### Invariants of `apply_data_types` output, for the idempotence proof -/

/-- Every column name is a fixpoint of `str.strip()`. -/
def NameFixed (f : Frame) : Prop := ∀ c ∈ f.cols, pyStrip c.name = c.name

/-- Every column named `nm` has dtype `D` and only `vfix`-fixed values. -/
def ColOk1 (nm : String) (D : Dtype) (vfix : Value → Value) (f : Frame) : Prop :=
  ∀ c ∈ f.cols, c.name = nm → c.dtype = D ∧ ∀ v ∈ c.vals, vfix v = v

/-- Every object-dtyped column holds only `stripVal`-fixed values. -/
def ObjOk (f : Frame) : Prop :=
  ∀ c ∈ f.cols, c.dtype = Dtype.object → ∀ v ∈ c.vals, stripVal v = v

/-- When a datetime `transaction_date` column is found, the five derived
calendar columns all exist and each is a fixpoint of its own re-derivation
followed by the object-strip pass. -/
def DerOk (f : Frame) : Prop :=
  ∀ tc, findCol "transaction_date" f = some tc → tc.dtype = Dtype.datetime64 →
    (hasCol "year" f = true ∧ hasCol "month" f = true ∧ hasCol "day" f = true ∧
      hasCol "month_name" f = true ∧ hasCol "day_of_week" f = true) ∧
    ∀ c ∈ f.cols,
      (c.name = "year" →
        stripColOp (updCol tc.vals (fun y _ _ => Value.num y) c) = c) ∧
      (c.name = "month" →
        stripColOp (updCol tc.vals (fun _ m _ => Value.num m) c) = c) ∧
      (c.name = "day" →
        stripColOp (updCol tc.vals (fun _ _ d => Value.num d) c) = c) ∧
      (c.name = "month_name" →
        stripColOp (updCol tc.vals (fun _ m _ => Value.str (monthName m)) c) = c) ∧
      (c.name = "day_of_week" →
        stripColOp (updCol tc.vals (fun y m d => Value.str (dayOfWeekName y m d)) c) = c)

/-- All the invariants that hold of the output of the non-trivial branch of
`apply_data_types` and force every stage to act as the identity. -/
def Normalized (f : Frame) : Prop :=
  NameFixed f ∧
  ColOk1 "transaction_date" Dtype.datetime64 pdToDatetime f ∧
  ColOk1 "posting_date" Dtype.datetime64 pdToDatetime f ∧
  ColOk1 "amount_spent" Dtype.float64 pdToNumeric f ∧
  ColOk1 "credit_limit" Dtype.float64 pdToNumeric f ∧
  ColOk1 "available_credit" Dtype.float64 pdToNumeric f ∧
  ColOk1 "is_subscription" Dtype.boolean boolNormVal f ∧
  ObjOk f ∧ DerOk f

end BSA

deriving instance DecidableEq for Except

namespace BSA

/-! ## General lemmas -/

theorem map_fix {α : Type} (g : α → α) :
    ∀ l : List α, (∀ a ∈ l, g a = a) → l.map g = l := by
  intro l h
  induction l with
  | nil => rfl
  | cons a t ih =>
    simp only [List.map_cons]
    rw [h a (by simp), ih (fun b hb => h b (by simp [hb]))]

theorem find?_map_pres {α : Type} (g : α → α) (p : α → Bool) (hg : ∀ a, p (g a) = p a) :
    ∀ l : List α, (l.map g).find? p = (l.find? p).map g := by
  intro l
  induction l with
  | nil => rfl
  | cons a t ih =>
    by_cases h : p a = true
    · simp [List.find?_cons, hg a, h]
    · simp only [List.map_cons, List.find?_cons, hg a]
      rw [Bool.eq_false_iff.mpr h]
      simpa using ih

theorem dedup_spec (corpus : List String) (batch : List (String × List Value)) :
    (dedupEngine corpus batch).1 = batch.filter (fun t => !corpus.contains t.1) ∧
    (dedupEngine corpus batch).2.1 = batch.filter (fun t => corpus.contains t.1) ∧
    (dedupEngine corpus batch).2.2 = (batch.filter (fun t => corpus.contains t.1)).length := by
  induction batch with
  | nil => exact ⟨rfl, rfl, rfl⟩
  | cons t rest ih =>
    by_cases hm : t.1 ∈ corpus
    · simpa [dedupEngine, hm] using ih
    · simpa [dedupEngine, hm] using ih

/-! ## Stage-structure lemmas for the Type Normalizer -/

theorem any_map_pres {α : Type} (g : α → α) (p : α → Bool) (hg : ∀ a, p (g a) = p a) :
    ∀ l : List α, (l.map g).any p = l.any p := by
  intro l
  induction l with
  | nil => rfl
  | cons a t ih => simp [List.any_cons, hg a, ih]

theorem hasCol_false_findCol_none (nm : String) (f : Frame) (h : hasCol nm f = false) :
    findCol nm f = none := by
  rw [findCol, List.find?_eq_none]
  intro c hc hp
  have h2 : hasCol nm f = true := List.any_eq_true.mpr ⟨c, hc, hp⟩
  rw [h] at h2
  cases h2

theorem hasCol_findCol (nm : String) (f : Frame) (h : hasCol nm f = true) :
    ∃ c, findCol nm f = some c := by
  unfold hasCol at h
  have h2 : (f.cols.find? (fun c => c.name == nm)).isSome := by
    rw [List.find?_isSome]
    exact List.any_eq_true.mp h
  exact Option.isSome_iff_exists.mp h2

theorem findCol_name (nm : String) (f : Frame) (c : Col) (h : findCol nm f = some c) :
    c.name = nm := by
  unfold findCol at h
  simpa using List.find?_some h

theorem applyIfPresent_eq (nm : String) (g : Col → Col) (f : Frame) :
    applyIfPresent nm g f = mapColsNamed nm g f := by
  unfold applyIfPresent
  by_cases h : hasCol nm f = true
  · rw [if_pos h]
  · rw [if_neg h]
    have hall : ∀ c ∈ f.cols, (c.name == nm) = false := by
      intro c hc
      cases hp : (c.name == nm) with
      | false => rfl
      | true =>
        have h2 : hasCol nm f = true := List.any_eq_true.mpr ⟨c, hc, hp⟩
        rw [h2] at h
        exact absurd rfl h
    obtain ⟨cols⟩ := f
    unfold mapColsNamed
    congr 1
    symm
    apply map_fix
    intro c hc
    simp [hall c hc]

theorem findCol_mapColsNamed (m nm : String) (g : Col → Col)
    (hg : ∀ c, (g c).name = c.name) (f : Frame) :
    findCol m (mapColsNamed nm g f) =
      (findCol m f).map (fun c => if c.name == nm then g c else c) := by
  unfold findCol mapColsNamed
  apply find?_map_pres
  intro a
  by_cases h : (a.name == nm) = true <;> simp [h, hg]

theorem findCol_mapColsNamed_ne (m nm : String) (hmn : m ≠ nm) (g : Col → Col)
    (hg : ∀ c, (g c).name = c.name) (f : Frame) :
    findCol m (mapColsNamed nm g f) = findCol m f := by
  rw [findCol_mapColsNamed m nm g hg f]
  cases hfc : findCol m f with
  | none => rfl
  | some c =>
    have hne : ¬ ((c.name == nm) = true) := by simp [findCol_name m f c hfc, hmn]
    simp only [Option.map_some']
    rw [if_neg hne]

theorem findCol_mapColsNamed_self (nm : String) (g : Col → Col)
    (hg : ∀ c, (g c).name = c.name) (f : Frame) :
    findCol nm (mapColsNamed nm g f) = (findCol nm f).map g := by
  rw [findCol_mapColsNamed nm nm g hg f]
  cases hfc : findCol nm f with
  | none => rfl
  | some c =>
    have hc : (c.name == nm) = true := by simp [findCol_name nm f c hfc]
    simp only [Option.map_some']
    rw [if_pos hc]

theorem hasCol_mapColsNamed (m nm : String) (g : Col → Col)
    (hg : ∀ c, (g c).name = c.name) (f : Frame) :
    hasCol m (mapColsNamed nm g f) = hasCol m f := by
  unfold hasCol mapColsNamed
  apply any_map_pres
  intro a
  by_cases h : (a.name == nm) = true <;> simp [h, hg]

theorem hasCol_toDatetimeStage (m : String) (f : Frame) :
    hasCol m (toDatetimeStage f) = hasCol m f := by
  unfold toDatetimeStage
  rw [applyIfPresent_eq, applyIfPresent_eq,
    hasCol_mapColsNamed m "posting_date" toDatetimeCol (fun c => rfl),
    hasCol_mapColsNamed m "transaction_date" toDatetimeCol (fun c => rfl)]

theorem hasCol_toNumericStage (m : String) (f : Frame) :
    hasCol m (toNumericStage f) = hasCol m f := by
  unfold toNumericStage
  rw [applyIfPresent_eq, applyIfPresent_eq, applyIfPresent_eq,
    hasCol_mapColsNamed m "available_credit" toNumericCol (fun c => rfl),
    hasCol_mapColsNamed m "credit_limit" toNumericCol (fun c => rfl),
    hasCol_mapColsNamed m "amount_spent" toNumericCol (fun c => rfl)]

theorem hasCol_subscriptionStage (m : String) (f : Frame) :
    hasCol m (subscriptionStage f) = hasCol m f := by
  unfold subscriptionStage
  rw [applyIfPresent_eq,
    hasCol_mapColsNamed m "is_subscription"
      (fun c => { c with dtype := Dtype.boolean, vals := c.vals.map boolNormVal })
      (fun c => rfl)]

theorem findCol_toDatetimeStage_td (f : Frame) :
    findCol "transaction_date" (toDatetimeStage f) =
      (findCol "transaction_date" f).map toDatetimeCol := by
  unfold toDatetimeStage
  rw [applyIfPresent_eq, applyIfPresent_eq,
    findCol_mapColsNamed_ne "transaction_date" "posting_date" (by decide) toDatetimeCol
      (fun c => rfl),
    findCol_mapColsNamed_self "transaction_date" toDatetimeCol (fun c => rfl)]

theorem findCol_toNumericStage_other (m : String) (f : Frame)
    (h1 : m ≠ "amount_spent") (h2 : m ≠ "credit_limit") (h3 : m ≠ "available_credit") :
    findCol m (toNumericStage f) = findCol m f := by
  unfold toNumericStage
  rw [applyIfPresent_eq, applyIfPresent_eq, applyIfPresent_eq,
    findCol_mapColsNamed_ne m "available_credit" h3 toNumericCol (fun c => rfl),
    findCol_mapColsNamed_ne m "credit_limit" h2 toNumericCol (fun c => rfl),
    findCol_mapColsNamed_ne m "amount_spent" h1 toNumericCol (fun c => rfl)]

theorem findCol_subscriptionStage_other (m : String) (f : Frame)
    (h : m ≠ "is_subscription") :
    findCol m (subscriptionStage f) = findCol m f := by
  unfold subscriptionStage
  rw [applyIfPresent_eq,
    findCol_mapColsNamed_ne m "is_subscription" h
      (fun c => { c with dtype := Dtype.boolean, vals := c.vals.map boolNormVal })
      (fun c => rfl)]

theorem findCol_stripObjects (m : String) (f : Frame) :
    findCol m (stripObjectsStage f) = (findCol m f).map stripColOp := by
  unfold findCol stripObjectsStage
  apply find?_map_pres
  intro a
  unfold stripColOp
  by_cases h : (a.dtype == Dtype.object) = true <;> simp [h]

theorem stripColOp_datetime (c : Col) (h : c.dtype = Dtype.datetime64) : stripColOp c = c := by
  unfold stripColOp
  rw [h]
  rfl

theorem newDerivedCol_name (tdv : List Value) (nm : String) (dt : Dtype)
    (fn : Nat → Nat → Nat → Value) : (newDerivedCol tdv nm dt fn).name = nm := rfl

theorem updCol_name (tdv : List Value) (fn : Nat → Nat → Nat → Value) (c : Col) :
    (updCol tdv fn c).name = c.name := rfl

theorem setDerived_pos (tdv : List Value) (nm : String) (dt : Dtype)
    (fn : Nat → Nat → Nat → Value) (f : Frame) (h : hasCol nm f = true) :
    setDerived tdv nm dt fn f = mapColsNamed nm (updCol tdv fn) f := by
  unfold setDerived mapColsNamed
  rw [if_pos h]

theorem hasCol_setDerived_other (m nm : String) (hmn : m ≠ nm) (tdv : List Value)
    (dt : Dtype) (fn : Nat → Nat → Nat → Value) (f : Frame) :
    hasCol m (setDerived tdv nm dt fn f) = hasCol m f := by
  unfold setDerived
  by_cases h : hasCol nm f = true
  · rw [if_pos h]
    unfold hasCol
    exact any_map_pres _ _
      (fun c => by by_cases hc : (c.name == nm) = true <;> simp [hc, updCol]) f.cols
  · rw [if_neg h]
    unfold hasCol
    rw [List.any_append]
    have hnew : ((newDerivedCol tdv nm dt fn).name == m) = false := by
      simp [newDerivedCol, Ne.symm hmn]
    simp [hnew]

theorem findCol_setDerived_ne (m nm : String) (hmn : m ≠ nm) (tdv : List Value)
    (dt : Dtype) (fn : Nat → Nat → Nat → Value) (f : Frame) :
    findCol m (setDerived tdv nm dt fn f) = findCol m f := by
  by_cases h : hasCol nm f = true
  · rw [setDerived_pos tdv nm dt fn f h]
    exact findCol_mapColsNamed_ne m nm hmn (updCol tdv fn) (fun c => rfl) f
  · unfold setDerived
    rw [if_neg h]
    unfold findCol
    rw [List.find?_append]
    have hnew : ((newDerivedCol tdv nm dt fn).name == m) = false := by
      simp [newDerivedCol, Ne.symm hmn]
    cases hfc : f.cols.find? (fun c => c.name == m) with
    | some c => rfl
    | none => simp [hnew]

theorem findCol_setDerived_self_none (nm : String) (tdv : List Value) (dt : Dtype)
    (fn : Nat → Nat → Nat → Value) (f : Frame) (h : hasCol nm f = false) :
    findCol nm (setDerived tdv nm dt fn f) = some (newDerivedCol tdv nm dt fn) := by
  unfold setDerived
  rw [if_neg (by simp [h])]
  unfold findCol
  rw [List.find?_append]
  have hn := hasCol_false_findCol_none nm f h
  unfold findCol at hn
  rw [hn]
  simp [newDerivedCol]

theorem pdToDatetime_shape (v : Value) :
    pdToDatetime v = Value.na ∨ ∃ y m d, pdToDatetime v = Value.date y m d := by
  cases v with
  | str s =>
    unfold pdToDatetime
    rcases hp : parseDateStr (pyStrip s) with _ | ⟨y, m, d⟩
    · left; simp [hp]
    · right; exact ⟨y, m, d, by simp [hp]⟩
  | na => left; rfl
  | num q => left; rfl
  | bool b => left; rfl
  | date y m d => right; exact ⟨y, m, d, rfl⟩

theorem derived_value_iff (tdv : List Value)
    (htdv : ∀ v ∈ tdv, v = Value.na ∨ ∃ y m d, v = Value.date y m d)
    (nm : String) (dt : Dtype) (fn : Nat → Nat → Nat → Value)
    (heff : ∀ y m d,
      (if (dt == Dtype.object) = true then stripVal (fn y m d) else fn y m d) ≠ Value.na)
    (i : Nat) :
    ((stripColOp (newDerivedCol tdv nm dt fn)).vals.getD i Value.na ≠ Value.na ↔
      tdv.getD i Value.na ≠ Value.na) := by
  by_cases hdt : (dt == Dtype.object) = true
  · have hvals : (stripColOp (newDerivedCol tdv nm dt fn)).vals =
        tdv.map (fun t => stripVal (derFn fn t)) := by
      unfold stripColOp newDerivedCol
      simp [hdt, List.map_map, Function.comp]
    rw [hvals, List.getD_eq_getElem?_getD, List.getElem?_map, List.getD_eq_getElem?_getD]
    cases ho : tdv[i]? with
    | none => simp
    | some v =>
      simp only [Option.map_some', Option.getD_some]
      rcases htdv v (List.getElem?_mem ho) with hv | ⟨y, m, d, hv⟩
      · subst hv
        simp [stripVal, derFn]
      · subst hv
        have := heff y m d
        rw [if_pos hdt] at this
        simp [derFn, this]
  · have hvals : (stripColOp (newDerivedCol tdv nm dt fn)).vals =
        tdv.map (derFn fn) := by
      unfold stripColOp newDerivedCol
      simp [hdt]
    rw [hvals, List.getD_eq_getElem?_getD, List.getElem?_map, List.getD_eq_getElem?_getD]
    cases ho : tdv[i]? with
    | none => simp
    | some v =>
      simp only [Option.map_some', Option.getD_some]
      rcases htdv v (List.getElem?_mem ho) with hv | ⟨y, m, d, hv⟩
      · subst hv
        simp [derFn]
      · subst hv
        have := heff y m d
        rw [if_neg hdt] at this
        simp [derFn, this]

theorem deriveStage_some (f : Frame) (c : Col)
    (h : findCol "transaction_date" f = some c) (hdt : c.dtype = Dtype.datetime64) :
    deriveStage f = deriveChain c.vals f := by
  unfold deriveStage
  rw [h]
  change (if (c.dtype == Dtype.datetime64) = true then deriveChain c.vals f else f) = _
  rw [hdt]
  rfl

theorem deriveStage_none (f : Frame)
    (h : findCol "transaction_date" f = none) : deriveStage f = f := by
  unfold deriveStage
  rw [h]

theorem findCol_deriveChain_other (m : String) (tdv : List Value) (g : Frame)
    (h1 : m ≠ "year") (h2 : m ≠ "month") (h3 : m ≠ "day") (h4 : m ≠ "month_name")
    (h5 : m ≠ "day_of_week") :
    findCol m (deriveChain tdv g) = findCol m g := by
  unfold deriveChain
  rw [findCol_setDerived_ne m "day_of_week" h5, findCol_setDerived_ne m "month_name" h4,
    findCol_setDerived_ne m "day" h3, findCol_setDerived_ne m "month" h2,
    findCol_setDerived_ne m "year" h1]

theorem findCol_deriveChain_year (tdv : List Value) (g : Frame)
    (h : hasCol "year" g = false) :
    findCol "year" (deriveChain tdv g) =
      some (newDerivedCol tdv "year" Dtype.int64n (fun y _ _ => Value.num y)) := by
  unfold deriveChain
  rw [findCol_setDerived_ne "year" "day_of_week" (by decide),
    findCol_setDerived_ne "year" "month_name" (by decide),
    findCol_setDerived_ne "year" "day" (by decide),
    findCol_setDerived_ne "year" "month" (by decide),
    findCol_setDerived_self_none "year" tdv _ _ g h]

theorem findCol_deriveChain_month (tdv : List Value) (g : Frame)
    (h : hasCol "month" g = false) :
    findCol "month" (deriveChain tdv g) =
      some (newDerivedCol tdv "month" Dtype.int64n (fun _ m _ => Value.num m)) := by
  unfold deriveChain
  rw [findCol_setDerived_ne "month" "day_of_week" (by decide),
    findCol_setDerived_ne "month" "month_name" (by decide),
    findCol_setDerived_ne "month" "day" (by decide),
    findCol_setDerived_self_none "month" tdv _ _ _
      (by rw [hasCol_setDerived_other "month" "year" (by decide)]; exact h)]

theorem findCol_deriveChain_day (tdv : List Value) (g : Frame)
    (h : hasCol "day" g = false) :
    findCol "day" (deriveChain tdv g) =
      some (newDerivedCol tdv "day" Dtype.int64n (fun _ _ d => Value.num d)) := by
  unfold deriveChain
  rw [findCol_setDerived_ne "day" "day_of_week" (by decide),
    findCol_setDerived_ne "day" "month_name" (by decide),
    findCol_setDerived_self_none "day" tdv _ _ _
      (by rw [hasCol_setDerived_other "day" "month" (by decide),
            hasCol_setDerived_other "day" "year" (by decide)]
          exact h)]

theorem findCol_deriveChain_month_name (tdv : List Value) (g : Frame)
    (h : hasCol "month_name" g = false) :
    findCol "month_name" (deriveChain tdv g) =
      some (newDerivedCol tdv "month_name" Dtype.object
        (fun _ m _ => Value.str (monthName m))) := by
  unfold deriveChain
  rw [findCol_setDerived_ne "month_name" "day_of_week" (by decide),
    findCol_setDerived_self_none "month_name" tdv _ _ _
      (by rw [hasCol_setDerived_other "month_name" "day" (by decide),
            hasCol_setDerived_other "month_name" "month" (by decide),
            hasCol_setDerived_other "month_name" "year" (by decide)]
          exact h)]

theorem findCol_deriveChain_day_of_week (tdv : List Value) (g : Frame)
    (h : hasCol "day_of_week" g = false) :
    findCol "day_of_week" (deriveChain tdv g) =
      some (newDerivedCol tdv "day_of_week" Dtype.object
        (fun y m d => Value.str (dayOfWeekName y m d))) := by
  unfold deriveChain
  rw [findCol_setDerived_self_none "day_of_week" tdv _ _ _
      (by rw [hasCol_setDerived_other "day_of_week" "month_name" (by decide),
            hasCol_setDerived_other "day_of_week" "day" (by decide),
            hasCol_setDerived_other "day_of_week" "month" (by decide),
            hasCol_setDerived_other "day_of_week" "year" (by decide)]
          exact h)]

/-! ## Claim theorems -/

/-- C10: for every input batch that is empty or misses the `amount_spent` or
`available_credit` column, `calculate_running_credit` returns the input frame
exactly unchanged — no sorting, no recomputation, no field added. -/
theorem running_credit_early_return (f : Frame)
    (h : frameEmpty f = true ∨ hasCol "amount_spent" f = false ∨
      hasCol "available_credit" f = false) :
    calculate_running_credit f = Except.ok f := by
  unfold calculate_running_credit
  rcases h with h | h | h <;> simp [h]

theorem running_credit_early_return_witness :
    (frameEmpty c10frame = true ∨ hasCol "amount_spent" c10frame = false ∨
      hasCol "available_credit" c10frame = false) ∧
    calculate_running_credit c10frame = Except.ok c10frame :=
  ⟨Or.inr (Or.inr (by decide)),
    running_credit_early_return _ (Or.inr (Or.inr (by decide)))⟩

/-- C3: the Deduplication Engine (modelled from the spec) partitions an
incoming batch against the corpus of existing fingerprints: `to_insert` holds
exactly the records whose fingerprint is absent from the corpus (in order),
`skipped` exactly the ones already present, the reported count is the number
of skipped duplicates, and the corpus itself is untouched (the function reads
it only); in particular a batch `[F-record, G-record]` against a corpus
containing `F` but not `G` yields `to_insert = [G-record]`, skipped count 1. -/
theorem dedup_partitions (corpus : List String) (batch : List (String × List Value)) :
    (dedupEngine corpus batch).1 = batch.filter (fun t => !corpus.contains t.1) ∧
    (dedupEngine corpus batch).2.1 = batch.filter (fun t => corpus.contains t.1) ∧
    (dedupEngine corpus batch).2.2 = (batch.filter (fun t => corpus.contains t.1)).length ∧
    (∀ (F G : String) (rF rG : List Value),
      corpus.contains F = true → corpus.contains G = false →
      dedupEngine corpus [(F, rF), (G, rG)] = ([(G, rG)], [(F, rF)], 1)) := by
  refine ⟨(dedup_spec corpus batch).1, (dedup_spec corpus batch).2.1,
    (dedup_spec corpus batch).2.2, ?_⟩
  intro F G rF rG hF hG
  have hF2 : F ∈ corpus := by simpa using hF
  have hG2 : G ∉ corpus := by simpa using hG
  simp [dedupEngine, hF2, hG2]

theorem dedup_partitions_witness :
    dedupEngine ["f0"] [("f0", []), ("g0", [])] = ([("g0", [])], [("f0", [])], 1) :=
  (dedup_partitions ["f0"] [("f0", []), ("g0", [])]).2.2.2 "f0" "g0" [] []
    (by decide) (by decide)

/-- C7 (code bug): `main_main.parse_date_with_year` catches only `ValueError`,
so a missing (`None`/`NaN`) or numeric `transaction_date` cell hits
`date_str.split()` and raises `AttributeError` instead of resolving to the
absent value — contradicting the spec's "date parsing must never raise". -/
theorem parse_date_raises_on_missing :
    parse_date_with_year Value.na 2025 = Except.error PyErr.attributeError ∧
    parse_date_with_year (Value.num 1) 2025 = Except.error PyErr.attributeError ∧
    parse_date_with_year Value.na 2025 ≠ Except.ok Value.na := by
  exact ⟨rfl, rfl, by decide⟩

set_option maxRecDepth 100000 in
/-- C8: for every batch (rectangular, and — as for raw extraction records —
not already carrying columns whose stripped names are the derived ones), a
record in the normalized output has each derived calendar field
(`year`, `month`, `day`, `month_name`, `day_of_week`) present exactly when
its `transaction_date` is present and valid; records with an absent or
unparseable date get all five fields absent, never a sentinel date. -/
theorem derived_fields_iff_date (f : Frame)
    (hrect : rectangular f)
    (hder : ∀ c ∈ f.cols, pyStrip c.name ∉ derivedNames)
    (d : String) (hd : d ∈ derivedNames) (i : Nat) :
    (valueAt (apply_data_types f) d i ≠ Value.na ↔
      valueAt (apply_data_types f) "transaction_date" i ≠ Value.na) := by
  have hpyd : pyStrip d = d := by
    have hall : ∀ x ∈ derivedNames, pyStrip x = x := by decide
    exact hall d hd
  by_cases hemp : frameEmpty f = true
  · unfold apply_data_types
    rw [if_pos hemp]
    have hdna : valueAt f d i = Value.na := by
      unfold valueAt
      cases hfc : findCol d f with
      | none => rfl
      | some c =>
        exfalso
        have hcn : c.name = d := findCol_name d f c hfc
        have hcm : c ∈ f.cols := List.mem_of_find?_eq_some hfc
        have hnot := hder c hcm
        rw [hcn, hpyd] at hnot
        exact hnot hd
    have htdna : valueAt f "transaction_date" i = Value.na := by
      unfold valueAt
      cases hfc : findCol "transaction_date" f with
      | none => rfl
      | some c =>
        have hcm : c ∈ f.cols := List.mem_of_find?_eq_some hfc
        have hlen := hrect c hcm
        have hne : f.cols ≠ [] := List.ne_nil_of_mem hcm
        have h0 : nRows f = 0 := by
          unfold frameEmpty at hemp
          rw [Bool.or_eq_true] at hemp
          rcases hemp with hemp | hemp
          · exact absurd (List.isEmpty_iff.mp hemp) hne
          · simpa using hemp
        rw [h0] at hlen
        show c.vals.getD i Value.na = Value.na
        rw [List.length_eq_zero.mp hlen]
        rfl
    rw [hdna, htdna]
  · unfold apply_data_types
    rw [if_neg hemp]
    have hf1names : ∀ m ∈ derivedNames, hasCol m (stripColNames f) = false := by
      intro m hm
      unfold hasCol stripColNames
      rw [List.any_eq_false]
      intro x hx
      rcases List.mem_map.mp hx with ⟨c, hc, rfl⟩
      intro hp
      have : pyStrip c.name = m := by simpa using hp
      exact (hder c hc) (this ▸ hm)
    have hdy4 : hasCol d
        (subscriptionStage (toNumericStage (toDatetimeStage (stripColNames f)))) = false := by
      rw [hasCol_subscriptionStage, hasCol_toNumericStage, hasCol_toDatetimeStage]
      exact hf1names d hd
    by_cases htd : hasCol "transaction_date" (stripColNames f) = true
    · obtain ⟨c0, hc0⟩ := hasCol_findCol _ _ htd
      have hctd4 : findCol "transaction_date"
          (subscriptionStage (toNumericStage (toDatetimeStage (stripColNames f)))) =
          some (toDatetimeCol c0) := by
        rw [findCol_subscriptionStage_other _ _ (by decide),
          findCol_toNumericStage_other _ _ (by decide) (by decide) (by decide),
          findCol_toDatetimeStage_td, hc0]
        rfl
      have hderive := deriveStage_some
        (subscriptionStage (toNumericStage (toDatetimeStage (stripColNames f))))
        (toDatetimeCol c0) hctd4 rfl
      rw [hderive]
      have htdvshape : ∀ v ∈ (toDatetimeCol c0).vals,
          v = Value.na ∨ ∃ y m d2, v = Value.date y m d2 := by
        intro v hv
        rcases List.mem_map.mp hv with ⟨w, _, rfl⟩
        exact pdToDatetime_shape w
      have hftdx : findCol "transaction_date"
          (stripObjectsStage (deriveChain (toDatetimeCol c0).vals
            (subscriptionStage (toNumericStage (toDatetimeStage (stripColNames f)))))) =
          some (toDatetimeCol c0) := by
        rw [findCol_stripObjects,
          findCol_deriveChain_other _ _ _ (by decide) (by decide) (by decide) (by decide)
            (by decide), hctd4]
        simp [stripColOp_datetime (toDatetimeCol c0) rfl]
      have hd5 : d = "year" ∨ d = "month" ∨ d = "day" ∨ d = "month_name" ∨
          d = "day_of_week" := by
        simpa [derivedNames] using hd
      rcases hd5 with rfl | rfl | rfl | rfl | rfl
      · have hfx := findCol_deriveChain_year (toDatetimeCol c0).vals _ hdy4
        have hfx2 : findCol "year"
            (stripObjectsStage (deriveChain (toDatetimeCol c0).vals
              (subscriptionStage (toNumericStage (toDatetimeStage (stripColNames f)))))) =
            some (stripColOp (newDerivedCol (toDatetimeCol c0).vals "year" Dtype.int64n
              (fun y _ _ => Value.num y))) := by
          rw [findCol_stripObjects, hfx, Option.map_some']
        simp only [valueAt, hfx2, hftdx]
        exact derived_value_iff _ htdvshape _ _ _ (by intro y m d2; simp) i
      · have hfx := findCol_deriveChain_month (toDatetimeCol c0).vals _ hdy4
        have hfx2 : findCol "month"
            (stripObjectsStage (deriveChain (toDatetimeCol c0).vals
              (subscriptionStage (toNumericStage (toDatetimeStage (stripColNames f)))))) =
            some (stripColOp (newDerivedCol (toDatetimeCol c0).vals "month" Dtype.int64n
              (fun _ m _ => Value.num m))) := by
          rw [findCol_stripObjects, hfx, Option.map_some']
        simp only [valueAt, hfx2, hftdx]
        exact derived_value_iff _ htdvshape _ _ _ (by intro y m d2; simp) i
      · have hfx := findCol_deriveChain_day (toDatetimeCol c0).vals _ hdy4
        have hfx2 : findCol "day"
            (stripObjectsStage (deriveChain (toDatetimeCol c0).vals
              (subscriptionStage (toNumericStage (toDatetimeStage (stripColNames f)))))) =
            some (stripColOp (newDerivedCol (toDatetimeCol c0).vals "day" Dtype.int64n
              (fun _ _ d2 => Value.num d2))) := by
          rw [findCol_stripObjects, hfx, Option.map_some']
        simp only [valueAt, hfx2, hftdx]
        exact derived_value_iff _ htdvshape _ _ _ (by intro y m d2; simp) i
      · have hfx := findCol_deriveChain_month_name (toDatetimeCol c0).vals _ hdy4
        have hfx2 : findCol "month_name"
            (stripObjectsStage (deriveChain (toDatetimeCol c0).vals
              (subscriptionStage (toNumericStage (toDatetimeStage (stripColNames f)))))) =
            some (stripColOp (newDerivedCol (toDatetimeCol c0).vals "month_name" Dtype.object
              (fun _ m _ => Value.str (monthName m)))) := by
          rw [findCol_stripObjects, hfx, Option.map_some']
        simp only [valueAt, hfx2, hftdx]
        exact derived_value_iff _ htdvshape _ _ _ (by intro y m d2; simp [stripVal]) i
      · have hfx := findCol_deriveChain_day_of_week (toDatetimeCol c0).vals _ hdy4
        have hfx2 : findCol "day_of_week"
            (stripObjectsStage (deriveChain (toDatetimeCol c0).vals
              (subscriptionStage (toNumericStage (toDatetimeStage (stripColNames f)))))) =
            some (stripColOp (newDerivedCol (toDatetimeCol c0).vals "day_of_week" Dtype.object
              (fun y m d2 => Value.str (dayOfWeekName y m d2)))) := by
          rw [findCol_stripObjects, hfx, Option.map_some']
        simp only [valueAt, hfx2, hftdx]
        exact derived_value_iff _ htdvshape _ _ _ (by intro y m d2; simp [stripVal]) i
    · have htdf : hasCol "transaction_date" (stripColNames f) = false := by
        cases h2 : hasCol "transaction_date" (stripColNames f) with
        | true => exact absurd h2 htd
        | false => rfl
      have htd4f : hasCol "transaction_date"
          (subscriptionStage (toNumericStage (toDatetimeStage (stripColNames f)))) = false := by
        rw [hasCol_subscriptionStage, hasCol_toNumericStage, hasCol_toDatetimeStage]
        exact htdf
      have hfz : findCol "transaction_date"
          (subscriptionStage (toNumericStage (toDatetimeStage (stripColNames f)))) = none :=
        hasCol_false_findCol_none _ _ htd4f
      have hderive := deriveStage_none
        (subscriptionStage (toNumericStage (toDatetimeStage (stripColNames f)))) hfz
      rw [hderive]
      have h1 : findCol d (stripObjectsStage
          (subscriptionStage (toNumericStage (toDatetimeStage (stripColNames f))))) = none := by
        rw [findCol_stripObjects, hasCol_false_findCol_none _ _ hdy4, Option.map_none']
      have h2 : findCol "transaction_date" (stripObjectsStage
          (subscriptionStage (toNumericStage (toDatetimeStage (stripColNames f))))) = none := by
        rw [findCol_stripObjects, hfz, Option.map_none']
      simp [valueAt, h1, h2]

set_option maxRecDepth 200000 in
theorem derived_fields_iff_date_witness :
    rectangular c8frame ∧
    (∀ c ∈ c8frame.cols, pyStrip c.name ∉ derivedNames) ∧
    "month_name" ∈ derivedNames ∧
    (valueAt (apply_data_types c8frame) "month_name" 0 ≠ Value.na ↔
      valueAt (apply_data_types c8frame) "transaction_date" 0 ≠ Value.na) ∧
    (valueAt (apply_data_types c8frame) "month_name" 1 ≠ Value.na ↔
      valueAt (apply_data_types c8frame) "transaction_date" 1 ≠ Value.na) :=
  ⟨by decide, by decide, by decide,
    derived_fields_iff_date c8frame (by decide) (by decide) "month_name" (by decide) 0,
    derived_fields_iff_date c8frame (by decide) (by decide) "month_name" (by decide) 1⟩

set_option maxRecDepth 100000 in
/-- C1 counterexample: for a record with date 2024-01-05, an absent
description and amount 4.50, the fingerprint the code computes is not the MD5
digest of the claimed canonical string (the one with an empty description
component): the code stringifies the missing description to `"nan"` first. -/
theorem hash_absent_description_counterexample :
    generate_hash (Value.date 2024 1 5) Value.na (Value.num (mkRat 9 2)) ≠
      Except.ok (specFingerprint (Value.date 2024 1 5) Value.na (Value.num (mkRat 9 2))) := by
  decide

/-- C1 amended: for every record whose required columns are present and whose
fields have their normalized shapes (date-or-absent date, string-or-absent
description, number-or-absent amount), the fingerprint is the MD5 hex digest
of the UTF-8 canonical string
`"<ISO-date-or-empty>-<lowercased-trimmed-description>-<amount to two
decimals, or empty if absent>"` — except that an absent description
contributes `str(NaN) = "nan"` (lowercased, trimmed), not the empty string. -/
theorem hash_canonical_string (dv sv av : Value)
    (hd : dv = Value.na ∨ ∃ y m d, dv = Value.date y m d)
    (hs : sv = Value.na ∨ ∃ s, sv = Value.str s)
    (ha : av = Value.na ∨ ∃ q, av = Value.num q) :
    generate_hash dv sv av = Except.ok (md5hex (utf8Bytes (codeCanonical dv sv av))) := by
  rcases hd with rfl | ⟨y, m, d, rfl⟩ <;> rcases hs with rfl | ⟨s, rfl⟩ <;>
    rcases ha with rfl | ⟨q, rfl⟩ <;> rfl

/-! ### Helpers for the Running Balance Reconstructor -/

theorem insertLe_perm {α : Type} (le : α → α → Bool) (a : α) :
    ∀ l : List α, (insertLe le a l).Perm (a :: l) := by
  intro l
  induction l with
  | nil => exact List.Perm.refl _
  | cons b t ih =>
    by_cases h : le a b = true
    · simp [insertLe, h]
    · simp only [insertLe, h, Bool.false_eq_true, if_false]
      exact (List.Perm.cons b ih).trans (List.Perm.swap a b t)

theorem sortLe_perm {α : Type} (le : α → α → Bool) :
    ∀ l : List α, (sortLe le l).Perm l := by
  intro l
  induction l with
  | nil => exact List.Perm.refl _
  | cons a t ih =>
    exact (insertLe_perm le a (sortLe le t)).trans (List.Perm.cons a ih)

theorem getD_all_na (l : List Value) (h : ∀ v ∈ l, v = Value.na) (i : Nat) :
    l.getD i Value.na = Value.na := by
  rw [List.getD_eq_getElem?_getD]
  cases hx : l[i]? with
  | none => rfl
  | some v => simpa using h v (List.getElem?_mem hx)

theorem firstValidIdxGo_all_na :
    ∀ l : List Value, (∀ v ∈ l, v = Value.na) → ∀ i, firstValidIdxGo i l = none := by
  intro l
  induction l with
  | nil => intro _ i; rfl
  | cons v t ih =>
    intro h i
    have hv : v = Value.na := h v (by simp)
    subst hv
    exact ih (fun w hw => h w (by simp [hw])) (i + 1)

theorem firstValidIdx_all_na (l : List Value) (h : ∀ v ∈ l, v = Value.na) :
    firstValidIdx l = none := firstValidIdxGo_all_na l h 0

theorem sortByDate_eq_reindex (f : Frame) (c : Col)
    (h : findCol "transaction_date" f = some c) :
    sortByDate f = Except.ok (reindexFrame f (sortPermOf (nRows f) c.vals)) := by
  unfold sortByDate reindexFrame
  rw [h]

theorem frameRows_reindex (f : Frame) (p : List Nat) (hne : f.cols ≠ []) :
    frameRows (reindexFrame f p) = p.map (rowAt f) := by
  have hn : nRows (reindexFrame f p) = p.length := by
    rcases hc : f.cols with _ | ⟨c0, r⟩
    · exact absurd hc hne
    · simp [reindexFrame, nRows, hc]
  apply List.ext_getElem
  · simp [frameRows, hn]
  · intro k h1 h2
    have hk : k < p.length := by simpa [frameRows, hn] using h1
    have hrow : rowAt (reindexFrame f p) k = rowAt f (p.get ⟨k, hk⟩) := by
      simp only [rowAt, reindexFrame, List.map_map]
      apply List.map_congr_left
      intro col _
      simp only [Function.comp_apply]
      rw [List.getD_eq_getElem?_getD, List.getElem?_map, List.getElem?_eq_getElem hk]
      rfl
    simp only [frameRows, hn, List.getElem_map, List.getElem_range, hrow,
      List.get_eq_getElem]

theorem frameRows_reindex_perm (f : Frame) (c : Col)
    (h : findCol "transaction_date" f = some c) :
    (frameRows (reindexFrame f (sortPermOf (nRows f) c.vals))).Perm (frameRows f) := by
  have hne : f.cols ≠ [] := by
    intro hnil
    rw [findCol, hnil] at h
    simp at h
  rw [frameRows_reindex f _ hne]
  have hperm : (sortPermOf (nRows f) c.vals).Perm (List.range (nRows f)) :=
    sortLe_perm _ _
  exact hperm.map (rowAt f)

theorem findCol_reindex (nm : String) (f : Frame) (p : List Nat) :
    findCol nm (reindexFrame f p) =
      (findCol nm f).map
        (fun col => { col with vals := p.map (fun i => col.vals.getD i Value.na) }) := by
  unfold findCol reindexFrame
  exact find?_map_pres
    (fun col => { col with vals := p.map (fun i => col.vals.getD i Value.na) })
    (fun c => c.name == nm) (fun a => rfl) f.cols

/-- C5 counterexample: a two-row batch out of date order with every
`available_credit` absent is not returned unmodified — the function sorts by
`transaction_date` before the no-balance check, so the output differs from
the input. -/
theorem running_credit_sorts_counterexample :
    (∀ v ∈ colVals "available_credit" c5frame, v = Value.na) ∧
    calculate_running_credit c5frame ≠ Except.ok c5frame := by
  refine ⟨by decide, by decide⟩

/-- C5 amended: a batch carrying a `transaction_date` column in which no
record has a known `available_credit` comes back with no balance
manufactured: every `available_credit` is still absent and the rows are a
permutation of the input rows (sorted ascending by date) — but not
necessarily in the input order; when the early return applies (empty frame or
missing columns) the input is returned exactly. -/
theorem running_credit_no_balance (f : Frame)
    (hna : ∀ v ∈ colVals "available_credit" f, v = Value.na)
    (htd : hasCol "transaction_date" f = true) :
    ∃ out, calculate_running_credit f = Except.ok out ∧
      (frameRows out).Perm (frameRows f) ∧
      (∀ v ∈ colVals "available_credit" out, v = Value.na) := by
  by_cases he : (frameEmpty f || !hasCol "amount_spent" f || !hasCol "available_credit" f) = true
  · refine ⟨f, ?_, List.Perm.refl _, hna⟩
    unfold calculate_running_credit
    rw [if_pos he]
  · obtain ⟨ctd, hctd⟩ := hasCol_findCol _ _ htd
    have hcols : hasCol "available_credit" f = true := by
      cases hb : hasCol "available_credit" f with
      | true => rfl
      | false => exact absurd (by simp [hb]) he
    obtain ⟨cac, hcac⟩ := hasCol_findCol _ _ hcols
    have hsort := sortByDate_eq_reindex f ctd hctd
    have hacvals : colVals "available_credit" (reindexFrame f (sortPermOf (nRows f) ctd.vals)) =
        (sortPermOf (nRows f) ctd.vals).map (fun i => cac.vals.getD i Value.na) := by
      unfold colVals
      rw [findCol_reindex, hcac]
      rfl
    have hallna : ∀ v ∈ colVals "available_credit"
        (reindexFrame f (sortPermOf (nRows f) ctd.vals)), v = Value.na := by
      rw [hacvals]
      intro v hv
      rcases List.mem_map.mp hv with ⟨i, _, hi⟩
      rw [← hi]
      apply getD_all_na
      intro w hw
      apply hna
      unfold colVals
      rw [hcac]
      exact hw
    refine ⟨reindexFrame f (sortPermOf (nRows f) ctd.vals), ?_,
      frameRows_reindex_perm f ctd hctd, hallna⟩
    unfold calculate_running_credit
    rw [if_neg he]
    simp only [hsort, firstValidIdx_all_na _ hallna]

theorem running_credit_no_balance_witness :
    ∃ out, calculate_running_credit c5frame = Except.ok out ∧
      (frameRows out).Perm (frameRows c5frame) ∧
      (∀ v ∈ colVals "available_credit" out, v = Value.na) :=
  running_credit_no_balance c5frame (by decide) (by decide)

theorem ratAdd_eq (a b : ℚ) : ratAdd a b = a + b := by
  unfold ratAdd
  rw [Rat.mkRat_eq_div]
  have ha : ((a.den : ℚ)) ≠ 0 := by exact_mod_cast a.den_nz
  have hb : ((b.den : ℚ)) ≠ 0 := by exact_mod_cast b.den_nz
  push_cast
  conv_rhs => rw [← Rat.num_div_den a, ← Rat.num_div_den b]
  field_simp
  try ring

theorem ratNeg_eq (a : ℚ) : ratNeg a = -a := by
  unfold ratNeg
  rw [Rat.mkRat_eq_div]
  push_cast
  try rw [neg_div]
  try rw [Rat.num_div_den]

theorem ratSub_eq (a b : ℚ) : ratSub a b = a - b := by
  rw [ratSub, ratAdd_eq, ratNeg_eq, sub_eq_add_neg]

theorem partialSums_length (qs : List ℚ) : ∀ acc, (partialSums acc qs).length = qs.length := by
  induction qs with
  | nil => intro acc; rfl
  | cons q r ih => intro acc; simp [partialSums, ih]

theorem cumsumNum_map_num (qs : List ℚ) :
    ∀ acc, cumsumNum acc (qs.map Value.num) = Except.ok ((partialSums acc qs).map Value.num) := by
  induction qs with
  | nil => intro acc; rfl
  | cons q r ih =>
    intro acc
    show cumsumNum acc (Value.num q :: r.map Value.num) = _
    simp only [cumsumNum, asNum, ratAdd_eq, partialSums, List.map_cons]
    rw [ih (acc + q)]
    rfl

theorem partialSums_getD (qs : List ℚ) :
    ∀ acc k, k < qs.length →
      (partialSums acc qs).getD k 0 = acc + (qs.take (k + 1)).sum := by
  induction qs with
  | nil => intro acc k h; exact absurd h (by simp)
  | cons q r ih =>
    intro acc k hk
    cases k with
    | zero => simp [partialSums]
    | succ k2 =>
      have hk2 : k2 < r.length := by simpa using hk
      simp only [partialSums, List.getD_cons_succ, ih (acc + q) k2 hk2, List.take_succ_cons,
        List.sum_cons]
      ring

theorem firstValidIdxGo_bound :
    ∀ (l : List Value) (i j : Nat), firstValidIdxGo i l = some j → i ≤ j ∧ j < i + l.length := by
  intro l
  induction l with
  | nil => intro i j h; exact absurd h (by simp [firstValidIdxGo])
  | cons v t ih =>
    intro i j h
    cases v with
    | na =>
      simp only [firstValidIdxGo] at h
      have h2 := ih (i + 1) j h
      simp only [List.length_cons]
      omega
    | str s =>
      simp only [firstValidIdxGo, Option.some.injEq] at h
      simp only [List.length_cons]
      omega
    | num q =>
      simp only [firstValidIdxGo, Option.some.injEq] at h
      simp only [List.length_cons]
      omega
    | bool b =>
      simp only [firstValidIdxGo, Option.some.injEq] at h
      simp only [List.length_cons]
      omega
    | date y m d =>
      simp only [firstValidIdxGo, Option.some.injEq] at h
      simp only [List.length_cons]
      omega

theorem firstValidIdx_lt_length (l : List Value) (j : Nat) (h : firstValidIdx l = some j) :
    j < l.length := by
  have := firstValidIdxGo_bound l 0 j h
  omega

theorem findCol_setColVals_self (nm : String) (vs : List Value) (f : Frame) (c : Col)
    (h : findCol nm f = some c) :
    findCol nm (setColVals nm vs f) = some { c with vals := vs } := by
  unfold findCol at h
  have hp := List.find?_some h
  have hpc : c.name = nm := by simpa using hp
  unfold findCol setColVals
  rw [find?_map_pres (fun c0 => if c0.name == nm then { c0 with vals := vs } else c0)
    (fun c0 => c0.name == nm) (fun a => by by_cases ha : (a.name == nm) = true <;> simp [ha])
    f.cols]
  rw [h]
  simp [hpc]

/-- C2: for a batch passing the early-return guard, once sorted by date
(`s`), with opening balance `b` at the first record carrying a known
`available_credit` (position `i0`) and all `amount_spent` entries from that
record onward present (`amts`), every record from the opening record onward
gets `available_credit = b - (cumulative sum of amount_spent from the opening
record through it, inclusive)`; for amounts `[a1, a2, a3]` that is
`[b - a1, b - a1 - a2, b - a1 - a2 - a3]`. -/
theorem running_credit_cumulative (f s : Frame) (i0 : Nat) (b : ℚ) (amts : List ℚ)
    (he : (frameEmpty f || !hasCol "amount_spent" f || !hasCol "available_credit" f) = false)
    (hs : sortByDate f = Except.ok s)
    (hi0 : firstValidIdx (colVals "available_credit" s) = some i0)
    (hb : (colVals "available_credit" s).getD i0 Value.na = Value.num b)
    (hamts : (colVals "amount_spent" s).drop i0 = amts.map Value.num) :
    ∃ out, calculate_running_credit f = Except.ok out ∧
      ∀ j, i0 ≤ j → j < i0 + amts.length →
        (colVals "available_credit" out).getD j Value.na =
          Value.num (b - (amts.take (j - i0 + 1)).sum) := by
  obtain ⟨cac, hcac⟩ : ∃ c, findCol "available_credit" s = some c := by
    cases hfc : findCol "available_credit" s with
    | some c => exact ⟨c, rfl⟩
    | none =>
      unfold colVals at hi0
      rw [hfc] at hi0
      exact absurd hi0 (by simp [firstValidIdx, firstValidIdxGo])
  have hcums : cumsumNum 0 ((colVals "amount_spent" s).drop i0) =
      Except.ok ((partialSums 0 amts).map Value.num) := by
    rw [hamts]
    exact cumsumNum_map_num amts 0
  refine ⟨setColVals "available_credit"
    ((colVals "available_credit" s).take i0 ++
      (partialSums 0 amts).map (fun c => Value.num (ratSub b c))) s, ?_, ?_⟩
  · unfold calculate_running_credit
    rw [if_neg (by simp [he])]
    simp only [hs, hi0, hb, asNum, hcums, List.map_map]
    rfl
  · intro j hj1 hj2
    have hi0len : i0 < (colVals "available_credit" s).length :=
      firstValidIdx_lt_length _ _ hi0
    have hcv : colVals "available_credit"
        (setColVals "available_credit"
          ((colVals "available_credit" s).take i0 ++
            (partialSums 0 amts).map (fun c => Value.num (ratSub b c))) s) =
        (colVals "available_credit" s).take i0 ++
          (partialSums 0 amts).map (fun c => Value.num (ratSub b c)) := by
      unfold colVals
      rw [findCol_setColVals_self _ _ _ _ hcac]
    rw [hcv]
    have htk : ((colVals "available_credit" s).take i0).length = i0 := by
      rw [List.length_take]
      omega
    have hj3 : j - i0 < amts.length := by omega
    have hj4 : j - i0 < (partialSums 0 amts).length := by
      rw [partialSums_length]
      omega
    rw [List.getD_eq_getElem?_getD, List.getElem?_append_right (by omega), htk,
      List.getElem?_map, List.getElem?_eq_getElem hj4]
    simp only [Option.map_some', Option.getD_some]
    have hsh : (partialSums 0 amts).getD (j - i0) 0 = (partialSums 0 amts)[j - i0] :=
      List.getD_eq_getElem _ _ hj4
    rw [← hsh]
    rw [partialSums_getD amts 0 (j - i0) hj3, ratSub_eq]
    rw [zero_add]

theorem running_credit_cumulative_witness :
    ∃ out, calculate_running_credit c2frame = Except.ok out ∧
      ∀ j, 0 ≤ j → j < 0 + [(10 : ℚ), 20, 5].length →
        (colVals "available_credit" out).getD j Value.na =
          Value.num (100 - ([(10 : ℚ), 20, 5].take (j - 0 + 1)).sum) :=
  running_credit_cumulative c2frame c2sorted 0 100 [10, 20, 5] rfl rfl rfl rfl rfl

theorem processResponses_foldl (l : List String) :
    ∀ init : List Json,
      l.foldl (fun acc r => acc ++ docContribution r) init =
        init ++ (l.map docContribution).flatten := by
  induction l with
  | nil => intro init; simp
  | cons r t ih => intro init; simp [List.foldl_cons, ih]

/-- C9: an extraction-response text that is malformed JSON, empty, or an
error message (anything `json.loads` rejects) contributes zero records:
its per-document contribution in the extraction loop is empty (no exception
escapes the loop, which continues with the remaining documents unchanged),
and handing such a text to `convert_gemini_response_to_dataframe` yields the
empty frame rather than an error. -/
theorem bad_response_contributes_nothing (r : String)
    (h1 : json_loads (stripFences r) = none) (h2 : json_loads r = none) :
    docContribution r = [] ∧
    (∀ pre rest : List String,
      processResponses (pre ++ r :: rest) = processResponses (pre ++ rest)) ∧
    convert_gemini_response_to_dataframe r = Except.ok emptyFrame := by
  have hd : docContribution r = [] := by
    unfold docContribution
    rw [h1]
  refine ⟨hd, ?_, ?_⟩
  · intro pre rest
    unfold processResponses
    rw [processResponses_foldl, processResponses_foldl]
    simp [hd]
  · unfold convert_gemini_response_to_dataframe
    by_cases hr : r = ""
    · simp [hr]
    · have hb : (r == "") = false := by simpa using hr
      simp [hb, h2]

theorem bad_response_contributes_nothing_witness :
    json_loads (stripFences "Error feeding data to Gemini API: boom") = none ∧
    json_loads "Error feeding data to Gemini API: boom" = none ∧
    (docContribution "Error feeding data to Gemini API: boom" = [] ∧
      (∀ pre rest : List String,
        processResponses (pre ++ "Error feeding data to Gemini API: boom" :: rest) =
          processResponses (pre ++ rest)) ∧
      convert_gemini_response_to_dataframe "Error feeding data to Gemini API: boom" =
        Except.ok emptyFrame) :=
  ⟨rfl, rfl, bad_response_contributes_nothing _ rfl rfl⟩

theorem hash_canonical_string_witness :
    generate_hash (Value.date 2024 1 5) (Value.str " Starbucks ") (Value.num (mkRat 9 2)) =
      Except.ok (md5hex (utf8Bytes (codeCanonical (Value.date 2024 1 5)
        (Value.str " Starbucks ") (Value.num (mkRat 9 2))))) :=
  hash_canonical_string _ _ _ (Or.inr ⟨2024, 1, 5, rfl⟩) (Or.inr ⟨" Starbucks ", rfl⟩)
    (Or.inr ⟨mkRat 9 2, rfl⟩)

/-! ## C4: idempotence of `apply_data_types` — value- and column-level facts -/

theorem dropWhile_head_not (p : Char → Bool) :
    ∀ (l : List Char) (c : Char), (l.dropWhile p).head? = some c → p c = false := by
  intro l
  induction l with
  | nil => intro c h; cases h
  | cons a t ih =>
    intro c h
    by_cases hp : p a = true
    · rw [List.dropWhile_cons, if_pos hp] at h
      exact ih c h
    · rw [List.dropWhile_cons, if_neg hp] at h
      have ha : a = c := by simpa using h
      subst ha
      exact Bool.eq_false_iff.mpr hp

theorem dropWhile_of_head_ok (p : Char → Bool) (l : List Char)
    (h : ∀ c, l.head? = some c → p c = false) : l.dropWhile p = l := by
  cases l with
  | nil => rfl
  | cons a t =>
    rw [List.dropWhile_cons, if_neg]
    simp [h a rfl]

theorem dropWhile_getLast (p : Char → Bool) :
    ∀ l : List Char, l.dropWhile p ≠ [] → (l.dropWhile p).getLast? = l.getLast? := by
  intro l
  induction l with
  | nil => intro h; exact absurd rfl h
  | cons a t ih =>
    intro h
    by_cases hp : p a = true
    · rw [List.dropWhile_cons, if_pos hp] at h ⊢
      rw [ih h]
      cases t with
      | nil => exact absurd rfl h
      | cons b t2 => rw [List.getLast?_cons_cons]
    · rw [List.dropWhile_cons, if_neg hp]

theorem pyStrip_idem (s : String) : pyStrip (pyStrip s) = pyStrip s := by
  unfold pyStrip
  congr 1
  have htl : ∀ l : List Char, (String.mk l).toList = l := fun l => rfl
  rw [htl]
  set C := s.toList.dropWhile Char.isWhitespace with hC
  set E := C.reverse.dropWhile Char.isWhitespace with hE
  by_cases hEnil : E = []
  · simp [hEnil]
  · have h1 : E.reverse.dropWhile Char.isWhitespace = E.reverse := by
      apply dropWhile_of_head_ok
      intro c hc
      rw [List.head?_reverse] at hc
      have h2 : E.getLast? = C.reverse.getLast? := by
        rw [hE]
        exact dropWhile_getLast Char.isWhitespace C.reverse (by rw [← hE]; exact hEnil)
      rw [h2, List.getLast?_reverse] at hc
      rw [hC] at hc
      exact dropWhile_head_not Char.isWhitespace s.toList c hc
    rw [h1, List.reverse_reverse]
    have h4 : E.dropWhile Char.isWhitespace = E := by
      apply dropWhile_of_head_ok
      intro c hc
      rw [hE] at hc
      exact dropWhile_head_not Char.isWhitespace C.reverse c hc
    rw [h4]

theorem stripVal_idem (v : Value) : stripVal (stripVal v) = stripVal v := by
  cases v with
  | str s =>
    show Value.str (pyStrip (pyStrip s)) = Value.str (pyStrip s)
    rw [pyStrip_idem]
  | na => rfl
  | num q => rfl
  | bool b => rfl
  | date y m d => rfl

theorem pdToDatetime_idem (v : Value) :
    pdToDatetime (pdToDatetime v) = pdToDatetime v := by
  rcases pdToDatetime_shape v with h | ⟨y, m, d, h⟩ <;> rw [h] <;> rfl

theorem pdToNumeric_idem (v : Value) : pdToNumeric (pdToNumeric v) = pdToNumeric v := by
  cases v with
  | na => rfl
  | date y m d => rfl
  | num q => rfl
  | bool b => cases b <;> rfl
  | str s =>
    cases hp : parseDec (pyStrip s) with
    | none =>
      have h1 : pdToNumeric (Value.str s) = Value.na := by
        simp only [pdToNumeric]
        rw [hp]
      rw [h1]
      rfl
    | some q =>
      have h1 : pdToNumeric (Value.str s) = Value.num q := by
        simp only [pdToNumeric]
        rw [hp]
      rw [h1]
      rfl

theorem boolNormVal_bool (b : Bool) : boolNormVal (Value.bool b) = Value.bool b := by
  cases b <;> decide

theorem boolNormVal_shape (v : Value) : ∃ b, boolNormVal v = Value.bool b := by
  cases v with
  | na => exact ⟨false, rfl⟩
  | str s => exact ⟨_, rfl⟩
  | num q => exact ⟨_, rfl⟩
  | bool b => exact ⟨_, rfl⟩
  | date y m d => exact ⟨_, rfl⟩

theorem boolNormVal_idem (v : Value) : boolNormVal (boolNormVal v) = boolNormVal v := by
  rcases boolNormVal_shape v with ⟨b, h⟩
  rw [h, boolNormVal_bool]

theorem colExt (a b : Col) (h1 : a.name = b.name) (h2 : a.dtype = b.dtype)
    (h3 : a.vals = b.vals) : a = b := by
  obtain ⟨n1, d1, v1⟩ := a
  obtain ⟨n2, d2, v2⟩ := b
  have e1 : n1 = n2 := h1
  have e2 : d1 = d2 := h2
  have e3 : v1 = v2 := h3
  subst e1
  subst e2
  subst e3
  rfl

theorem stripColOp_name (c : Col) : (stripColOp c).name = c.name := by
  unfold stripColOp
  split <;> rfl

theorem stripColOp_dtype (c : Col) : (stripColOp c).dtype = c.dtype := by
  unfold stripColOp
  split <;> rfl

theorem stripColOp_vals_obj (c : Col) (h : (c.dtype == Dtype.object) = true) :
    (stripColOp c).vals = c.vals.map stripVal := by
  unfold stripColOp
  rw [if_pos h]

theorem stripColOp_skip (c : Col) (h : (c.dtype == Dtype.object) = false) :
    stripColOp c = c := by
  unfold stripColOp
  rw [if_neg (by simp [h])]

theorem stripColOp_fix (c : Col)
    (h : c.dtype = Dtype.object → ∀ v ∈ c.vals, stripVal v = v) : stripColOp c = c := by
  by_cases hd : (c.dtype == Dtype.object) = true
  · apply colExt
    · exact stripColOp_name c
    · exact stripColOp_dtype c
    · rw [stripColOp_vals_obj c hd]
      exact map_fix stripVal c.vals (h (by simpa using hd))
  · exact stripColOp_skip c (Bool.eq_false_iff.mpr hd)

theorem updCol_dtype (tdv : List Value) (fn : Nat → Nat → Nat → Value) (c : Col) :
    (updCol tdv fn c).dtype = c.dtype := rfl

theorem updCol_vals (tdv : List Value) (fn : Nat → Nat → Nat → Value) (c : Col) :
    (updCol tdv fn c).vals = List.zipWith (updFn fn) tdv c.vals := rfl

theorem newDerivedCol_vals (tdv : List Value) (nm : String) (dt : Dtype)
    (fn : Nat → Nat → Nat → Value) :
    (newDerivedCol tdv nm dt fn).vals = tdv.map (derFn fn) := rfl

theorem updCol_vals_idem (tdv : List Value) (fn : Nat → Nat → Nat → Value) :
    ∀ vals : List Value,
      List.zipWith (updFn fn) tdv (List.zipWith (updFn fn) tdv vals) =
        List.zipWith (updFn fn) tdv vals := by
  induction tdv with
  | nil => intro vals; rfl
  | cons t r ih =>
    intro vals
    cases vals with
    | nil => rfl
    | cons v vs =>
      simp only [List.zipWith_cons_cons]
      rw [ih vs]
      congr 1
      cases t <;> rfl

theorem updCol_updCol (tdv : List Value) (fn : Nat → Nat → Nat → Value) (c : Col) :
    updCol tdv fn (updCol tdv fn c) = updCol tdv fn c :=
  colExt _ _ rfl rfl (updCol_vals_idem tdv fn c.vals)

theorem updCol_strip_vals_idem (tdv : List Value) (fn : Nat → Nat → Nat → Value) :
    ∀ vals : List Value,
      List.map stripVal (List.zipWith (updFn fn) tdv
        (List.map stripVal (List.zipWith (updFn fn) tdv vals))) =
      List.map stripVal (List.zipWith (updFn fn) tdv vals) := by
  induction tdv with
  | nil => intro vals; rfl
  | cons t r ih =>
    intro vals
    cases vals with
    | nil => rfl
    | cons v vs =>
      simp only [List.zipWith_cons_cons, List.map_cons]
      rw [ih vs]
      congr 1
      cases t with
      | date y m d => rfl
      | na => exact stripVal_idem v
      | str s => exact stripVal_idem v
      | num q => exact stripVal_idem v
      | bool b => exact stripVal_idem v

theorem upd_new_vals (tdv : List Value) (fn : Nat → Nat → Nat → Value) :
    List.zipWith (updFn fn) tdv (List.map (derFn fn) tdv) = List.map (derFn fn) tdv := by
  induction tdv with
  | nil => rfl
  | cons t r ih =>
    simp only [List.map_cons, List.zipWith_cons_cons]
    rw [ih]
    congr 1
    cases t <;> rfl

theorem derive_strip_vals_new (tdv : List Value) (fn : Nat → Nat → Nat → Value) :
    List.map stripVal (List.zipWith (updFn fn) tdv
      (List.map stripVal (List.map (derFn fn) tdv))) =
    List.map stripVal (List.map (derFn fn) tdv) := by
  induction tdv with
  | nil => rfl
  | cons t r ih =>
    simp only [List.map_cons, List.zipWith_cons_cons]
    rw [ih]
    congr 1
    cases t <;> rfl

theorem strip_upd_round_upd (tdv : List Value) (fn : Nat → Nat → Nat → Value) (c0 : Col) :
    stripColOp (updCol tdv fn (stripColOp (updCol tdv fn c0))) =
      stripColOp (updCol tdv fn c0) := by
  by_cases hd : (c0.dtype == Dtype.object) = true
  · have hd1 : ((updCol tdv fn c0).dtype == Dtype.object) = true := hd
    have hd2 : ((updCol tdv fn (stripColOp (updCol tdv fn c0))).dtype ==
        Dtype.object) = true := by
      rw [updCol_dtype, stripColOp_dtype, updCol_dtype]
      exact hd
    apply colExt
    · simp [stripColOp_name, updCol_name]
    · simp [stripColOp_dtype, updCol_dtype]
    · rw [stripColOp_vals_obj _ hd2, updCol_vals, stripColOp_vals_obj _ hd1, updCol_vals]
      exact updCol_strip_vals_idem tdv fn c0.vals
  · have hne : ((updCol tdv fn c0).dtype == Dtype.object) = false := by
      rw [updCol_dtype]
      exact Bool.eq_false_iff.mpr hd
    rw [stripColOp_skip _ hne, updCol_updCol]
    exact stripColOp_skip _ hne

theorem strip_upd_round_new (tdv : List Value) (nm : String) (dt : Dtype)
    (fn : Nat → Nat → Nat → Value) :
    stripColOp (updCol tdv fn (stripColOp (newDerivedCol tdv nm dt fn))) =
      stripColOp (newDerivedCol tdv nm dt fn) := by
  by_cases hd : (dt == Dtype.object) = true
  · have hdN : ((newDerivedCol tdv nm dt fn).dtype == Dtype.object) = true := hd
    have hd2 : ((updCol tdv fn (stripColOp (newDerivedCol tdv nm dt fn))).dtype ==
        Dtype.object) = true := by
      rw [updCol_dtype, stripColOp_dtype]
      exact hd
    apply colExt
    · simp [stripColOp_name, updCol_name]
    · simp [stripColOp_dtype, updCol_dtype]
    · rw [stripColOp_vals_obj _ hd2, updCol_vals, stripColOp_vals_obj _ hdN,
        newDerivedCol_vals]
      exact derive_strip_vals_new tdv fn
  · have hdN : ((newDerivedCol tdv nm dt fn).dtype == Dtype.object) = false :=
      Bool.eq_false_iff.mpr hd
    rw [stripColOp_skip _ hdN]
    have hfix : updCol tdv fn (newDerivedCol tdv nm dt fn) = newDerivedCol tdv nm dt fn :=
      colExt _ _ rfl rfl (by rw [updCol_vals, newDerivedCol_vals]; exact upd_new_vals tdv fn)
    rw [hfix]
    exact stripColOp_skip _ hdN

/-! ## C4: every stage is the identity on a `Normalized` frame -/

theorem mapColsNamed_fix (nm : String) (g : Col → Col) (f : Frame)
    (h : ∀ c ∈ f.cols, c.name = nm → g c = c) : mapColsNamed nm g f = f := by
  obtain ⟨cols⟩ := f
  unfold mapColsNamed
  congr 1
  apply map_fix
  intro c hc
  by_cases hcn : (c.name == nm) = true
  · rw [if_pos hcn]
    exact h c hc (by simpa using hcn)
  · rw [if_neg hcn]

theorem stripColNames_fix (f : Frame) (h : NameFixed f) : stripColNames f = f := by
  obtain ⟨cols⟩ := f
  unfold stripColNames
  congr 1
  apply map_fix
  intro c hc
  apply colExt
  · exact h c hc
  · rfl
  · rfl

theorem toDatetimeCol_fix (c : Col)
    (hd : c.dtype = Dtype.datetime64) (hv : ∀ v ∈ c.vals, pdToDatetime v = v) :
    toDatetimeCol c = c := by
  apply colExt
  · rfl
  · exact hd.symm
  · exact map_fix pdToDatetime c.vals hv

theorem toNumericCol_fix (c : Col)
    (hd : c.dtype = Dtype.float64) (hv : ∀ v ∈ c.vals, pdToNumeric v = v) :
    toNumericCol c = c := by
  apply colExt
  · rfl
  · exact hd.symm
  · exact map_fix pdToNumeric c.vals hv

theorem boolColFix (c : Col)
    (hd : c.dtype = Dtype.boolean) (hv : ∀ v ∈ c.vals, boolNormVal v = v) :
    ({ c with dtype := Dtype.boolean, vals := c.vals.map boolNormVal } : Col) = c := by
  apply colExt
  · rfl
  · exact hd.symm
  · exact map_fix boolNormVal c.vals hv

theorem toDatetimeStage_fix (f : Frame)
    (h1 : ColOk1 "transaction_date" Dtype.datetime64 pdToDatetime f)
    (h2 : ColOk1 "posting_date" Dtype.datetime64 pdToDatetime f) :
    toDatetimeStage f = f := by
  unfold toDatetimeStage
  rw [applyIfPresent_eq, applyIfPresent_eq]
  rw [mapColsNamed_fix "transaction_date" toDatetimeCol f
    (fun c hc hcn => toDatetimeCol_fix c ((h1 c hc hcn).1) ((h1 c hc hcn).2))]
  exact mapColsNamed_fix "posting_date" toDatetimeCol f
    (fun c hc hcn => toDatetimeCol_fix c ((h2 c hc hcn).1) ((h2 c hc hcn).2))

theorem toNumericStage_fix (f : Frame)
    (h1 : ColOk1 "amount_spent" Dtype.float64 pdToNumeric f)
    (h2 : ColOk1 "credit_limit" Dtype.float64 pdToNumeric f)
    (h3 : ColOk1 "available_credit" Dtype.float64 pdToNumeric f) :
    toNumericStage f = f := by
  unfold toNumericStage
  rw [applyIfPresent_eq, applyIfPresent_eq, applyIfPresent_eq]
  rw [mapColsNamed_fix "amount_spent" toNumericCol f
    (fun c hc hcn => toNumericCol_fix c ((h1 c hc hcn).1) ((h1 c hc hcn).2))]
  rw [mapColsNamed_fix "credit_limit" toNumericCol f
    (fun c hc hcn => toNumericCol_fix c ((h2 c hc hcn).1) ((h2 c hc hcn).2))]
  exact mapColsNamed_fix "available_credit" toNumericCol f
    (fun c hc hcn => toNumericCol_fix c ((h3 c hc hcn).1) ((h3 c hc hcn).2))

theorem subscriptionStage_fix (f : Frame)
    (h : ColOk1 "is_subscription" Dtype.boolean boolNormVal f) :
    subscriptionStage f = f := by
  unfold subscriptionStage
  rw [applyIfPresent_eq]
  exact mapColsNamed_fix "is_subscription"
    (fun c => { c with dtype := Dtype.boolean, vals := c.vals.map boolNormVal }) f
    (fun c hc hcn => boolColFix c ((h c hc hcn).1) ((h c hc hcn).2))

theorem stripObjectsStage_fix (f : Frame) (h : ObjOk f) : stripObjectsStage f = f := by
  obtain ⟨cols⟩ := f
  unfold stripObjectsStage
  congr 1
  apply map_fix
  intro c hc
  exact stripColOp_fix c (fun hd => h c hc hd)

theorem deriveStage_not_datetime (f : Frame) (c : Col)
    (hfc : findCol "transaction_date" f = some c)
    (hdt : ¬ c.dtype = Dtype.datetime64) : deriveStage f = f := by
  unfold deriveStage
  rw [hfc]
  change (if (c.dtype == Dtype.datetime64) = true then deriveChain c.vals f else f) = f
  rw [if_neg (by simpa using hdt)]

theorem strip_derive_fix (f : Frame) (hobj : ObjOk f) (hder : DerOk f) :
    stripObjectsStage (deriveStage f) = f := by
  cases hfc : findCol "transaction_date" f with
  | none =>
    rw [deriveStage_none f hfc]
    exact stripObjectsStage_fix f hobj
  | some tc =>
    by_cases hdt : tc.dtype = Dtype.datetime64
    · rw [deriveStage_some f tc hfc hdt]
      obtain ⟨⟨hy, hm, hd, hmn, hdw⟩, hcols⟩ := hder tc hfc hdt
      unfold deriveChain
      rw [setDerived_pos tc.vals "year" Dtype.int64n (fun y _ _ => Value.num y) f hy]
      rw [setDerived_pos tc.vals "month" Dtype.int64n (fun _ m _ => Value.num m) _
        (by rw [hasCol_mapColsNamed "month" "year"
              (updCol tc.vals (fun y _ _ => Value.num y)) (fun c => rfl) f]
            exact hm)]
      rw [setDerived_pos tc.vals "day" Dtype.int64n (fun _ _ d => Value.num d) _
        (by rw [hasCol_mapColsNamed "day" "month"
              (updCol tc.vals (fun _ m _ => Value.num m)) (fun c => rfl),
              hasCol_mapColsNamed "day" "year"
              (updCol tc.vals (fun y _ _ => Value.num y)) (fun c => rfl) f]
            exact hd)]
      rw [setDerived_pos tc.vals "month_name" Dtype.object
        (fun _ m _ => Value.str (monthName m)) _
        (by rw [hasCol_mapColsNamed "month_name" "day"
              (updCol tc.vals (fun _ _ d => Value.num d)) (fun c => rfl),
              hasCol_mapColsNamed "month_name" "month"
              (updCol tc.vals (fun _ m _ => Value.num m)) (fun c => rfl),
              hasCol_mapColsNamed "month_name" "year"
              (updCol tc.vals (fun y _ _ => Value.num y)) (fun c => rfl) f]
            exact hmn)]
      rw [setDerived_pos tc.vals "day_of_week" Dtype.object
        (fun y m d => Value.str (dayOfWeekName y m d)) _
        (by rw [hasCol_mapColsNamed "day_of_week" "month_name"
              (updCol tc.vals (fun _ m _ => Value.str (monthName m))) (fun c => rfl),
              hasCol_mapColsNamed "day_of_week" "day"
              (updCol tc.vals (fun _ _ d => Value.num d)) (fun c => rfl),
              hasCol_mapColsNamed "day_of_week" "month"
              (updCol tc.vals (fun _ m _ => Value.num m)) (fun c => rfl),
              hasCol_mapColsNamed "day_of_week" "year"
              (updCol tc.vals (fun y _ _ => Value.num y)) (fun c => rfl) f]
            exact hdw)]
      obtain ⟨cols⟩ := f
      simp only [stripObjectsStage, mapColsNamed]
      congr 1
      simp only [List.map_map]
      apply map_fix
      intro c hc
      simp only [Function.comp]
      have hcase := hcols c hc
      by_cases h1 : (c.name == "year") = true
      · have hn : c.name = "year" := by simpa using h1
        rw [if_pos h1,
          if_neg (show ¬ ((updCol tc.vals (fun y _ _ => Value.num y) c).name ==
            "month") = true by simp [updCol_name, hn]),
          if_neg (show ¬ ((updCol tc.vals (fun y _ _ => Value.num y) c).name ==
            "day") = true by simp [updCol_name, hn]),
          if_neg (show ¬ ((updCol tc.vals (fun y _ _ => Value.num y) c).name ==
            "month_name") = true by simp [updCol_name, hn]),
          if_neg (show ¬ ((updCol tc.vals (fun y _ _ => Value.num y) c).name ==
            "day_of_week") = true by simp [updCol_name, hn])]
        exact hcase.1 hn
      by_cases h2 : (c.name == "month") = true
      · have hn : c.name = "month" := by simpa using h2
        rw [if_neg (show ¬ (c.name == "year") = true by simp [hn]),
          if_pos h2,
          if_neg (show ¬ ((updCol tc.vals (fun _ m _ => Value.num m) c).name ==
            "day") = true by simp [updCol_name, hn]),
          if_neg (show ¬ ((updCol tc.vals (fun _ m _ => Value.num m) c).name ==
            "month_name") = true by simp [updCol_name, hn]),
          if_neg (show ¬ ((updCol tc.vals (fun _ m _ => Value.num m) c).name ==
            "day_of_week") = true by simp [updCol_name, hn])]
        exact hcase.2.1 hn
      by_cases h3 : (c.name == "day") = true
      · have hn : c.name = "day" := by simpa using h3
        rw [if_neg (show ¬ (c.name == "year") = true by simp [hn]),
          if_neg (show ¬ (c.name == "month") = true by simp [hn]),
          if_pos h3,
          if_neg (show ¬ ((updCol tc.vals (fun _ _ d => Value.num d) c).name ==
            "month_name") = true by simp [updCol_name, hn]),
          if_neg (show ¬ ((updCol tc.vals (fun _ _ d => Value.num d) c).name ==
            "day_of_week") = true by simp [updCol_name, hn])]
        exact hcase.2.2.1 hn
      by_cases h4 : (c.name == "month_name") = true
      · have hn : c.name = "month_name" := by simpa using h4
        rw [if_neg (show ¬ (c.name == "year") = true by simp [hn]),
          if_neg (show ¬ (c.name == "month") = true by simp [hn]),
          if_neg (show ¬ (c.name == "day") = true by simp [hn]),
          if_pos h4,
          if_neg (show ¬ ((updCol tc.vals
            (fun _ m _ => Value.str (monthName m)) c).name ==
            "day_of_week") = true by simp [updCol_name, hn])]
        exact hcase.2.2.2.1 hn
      by_cases h5 : (c.name == "day_of_week") = true
      · have hn : c.name = "day_of_week" := by simpa using h5
        rw [if_neg (show ¬ (c.name == "year") = true by simp [hn]),
          if_neg (show ¬ (c.name == "month") = true by simp [hn]),
          if_neg (show ¬ (c.name == "day") = true by simp [hn]),
          if_neg (show ¬ (c.name == "month_name") = true by simp [hn]),
          if_pos h5]
        exact hcase.2.2.2.2 hn
      · rw [if_neg h1, if_neg h2, if_neg h3, if_neg h4, if_neg h5]
        exact stripColOp_fix c (fun hdc => hobj c hc hdc)
    · rw [deriveStage_not_datetime f tc hfc hdt]
      exact stripObjectsStage_fix f hobj

theorem normalized_fix (x : Frame) (h : Normalized x) : apply_data_types x = x := by
  obtain ⟨hnf, htd, hpd, has, hcl, hac, hsub, hobj, hder⟩ := h
  unfold apply_data_types
  by_cases he : frameEmpty x = true
  · rw [if_pos he]
  · rw [if_neg he]
    rw [stripColNames_fix x hnf, toDatetimeStage_fix x htd hpd,
      toNumericStage_fix x has hcl hac, subscriptionStage_fix x hsub]
    exact strip_derive_fix x hobj hder

/-! ## C4: the invariants hold of the stage pipeline output -/

theorem nameFixed_stripColNames (f : Frame) : NameFixed (stripColNames f) := by
  intro c hc
  simp only [stripColNames] at hc
  rcases List.mem_map.mp hc with ⟨c0, hc0, rfl⟩
  exact pyStrip_idem c0.name

theorem nameFixed_mapColsNamed (nm : String) (g : Col → Col) (f : Frame)
    (hg : ∀ c, (g c).name = c.name) (h : NameFixed f) :
    NameFixed (mapColsNamed nm g f) := by
  intro c hc
  simp only [mapColsNamed] at hc
  rcases List.mem_map.mp hc with ⟨c0, hc0, rfl⟩
  by_cases hcn : (c0.name == nm) = true
  · rw [if_pos hcn, hg c0]
    exact h c0 hc0
  · rw [if_neg hcn]
    exact h c0 hc0

theorem nameFixed_setDerived (nm : String) (tdv : List Value) (dt : Dtype)
    (fn : Nat → Nat → Nat → Value) (f : Frame) (hnm : pyStrip nm = nm)
    (h : NameFixed f) : NameFixed (setDerived tdv nm dt fn f) := by
  intro c hc
  unfold setDerived at hc
  by_cases hh : hasCol nm f = true
  · rw [if_pos hh] at hc
    rcases List.mem_map.mp hc with ⟨c0, hc0, rfl⟩
    by_cases hcn : (c0.name == nm) = true
    · rw [if_pos hcn, updCol_name]
      exact h c0 hc0
    · rw [if_neg hcn]
      exact h c0 hc0
  · rw [if_neg hh] at hc
    rcases List.mem_append.mp hc with hc1 | hc2
    · exact h c hc1
    · rw [List.mem_singleton] at hc2
      subst hc2
      rw [newDerivedCol_name]
      exact hnm

theorem nameFixed_stripObjects (f : Frame) (h : NameFixed f) :
    NameFixed (stripObjectsStage f) := by
  intro c hc
  simp only [stripObjectsStage] at hc
  rcases List.mem_map.mp hc with ⟨c0, hc0, rfl⟩
  rw [stripColOp_name]
  exact h c0 hc0

theorem nameFixed_toDatetimeStage (f : Frame) (h : NameFixed f) :
    NameFixed (toDatetimeStage f) := by
  unfold toDatetimeStage
  rw [applyIfPresent_eq, applyIfPresent_eq]
  exact nameFixed_mapColsNamed _ _ _ (fun c => rfl)
    (nameFixed_mapColsNamed _ _ _ (fun c => rfl) h)

theorem nameFixed_toNumericStage (f : Frame) (h : NameFixed f) :
    NameFixed (toNumericStage f) := by
  unfold toNumericStage
  rw [applyIfPresent_eq, applyIfPresent_eq, applyIfPresent_eq]
  exact nameFixed_mapColsNamed _ _ _ (fun c => rfl)
    (nameFixed_mapColsNamed _ _ _ (fun c => rfl)
      (nameFixed_mapColsNamed _ _ _ (fun c => rfl) h))

theorem nameFixed_subscriptionStage (f : Frame) (h : NameFixed f) :
    NameFixed (subscriptionStage f) := by
  unfold subscriptionStage
  rw [applyIfPresent_eq]
  exact nameFixed_mapColsNamed _ _ _ (fun c => rfl) h

theorem nameFixed_deriveChain (tdv : List Value) (f : Frame) (h : NameFixed f) :
    NameFixed (deriveChain tdv f) := by
  unfold deriveChain
  apply nameFixed_setDerived _ _ _ _ _ (by decide)
  apply nameFixed_setDerived _ _ _ _ _ (by decide)
  apply nameFixed_setDerived _ _ _ _ _ (by decide)
  apply nameFixed_setDerived _ _ _ _ _ (by decide)
  exact nameFixed_setDerived _ _ _ _ _ (by decide) h

theorem colOk1_mapColsNamed_self (nm : String) (D : Dtype) (vfix : Value → Value)
    (g : Col → Col) (f : Frame)
    (hgD : ∀ c, (g c).dtype = D) (hgv : ∀ c, (g c).vals = c.vals.map vfix)
    (hidem : ∀ v, vfix (vfix v) = vfix v) :
    ColOk1 nm D vfix (mapColsNamed nm g f) := by
  intro c hc hcn
  simp only [mapColsNamed] at hc
  rcases List.mem_map.mp hc with ⟨c0, hc0, rfl⟩
  by_cases h0 : (c0.name == nm) = true
  · rw [if_pos h0]
    refine ⟨hgD c0, ?_⟩
    rw [hgv c0]
    intro v hv
    rcases List.mem_map.mp hv with ⟨w, hw, rfl⟩
    exact hidem w
  · rw [if_neg h0] at hcn
    exact absurd hcn (by simpa using h0)

theorem colOk1_mapColsNamed_other (nm : String) (D : Dtype) (vfix : Value → Value)
    (m : String) (g : Col → Col) (f : Frame) (hm : m ≠ nm)
    (hg : ∀ c, (g c).name = c.name) (h : ColOk1 nm D vfix f) :
    ColOk1 nm D vfix (mapColsNamed m g f) := by
  intro c hc hcn
  simp only [mapColsNamed] at hc
  rcases List.mem_map.mp hc with ⟨c0, hc0, rfl⟩
  by_cases h0 : (c0.name == m) = true
  · rw [if_pos h0, hg c0] at hcn
    have h1 : c0.name = m := by simpa using h0
    rw [h1] at hcn
    exact absurd hcn hm
  · rw [if_neg h0] at hcn ⊢
    exact h c0 hc0 hcn

theorem colOk1_setDerived (nm : String) (D : Dtype) (vfix : Value → Value)
    (m : String) (tdv : List Value) (dt : Dtype) (fn : Nat → Nat → Nat → Value)
    (f : Frame) (hm : m ≠ nm) (h : ColOk1 nm D vfix f) :
    ColOk1 nm D vfix (setDerived tdv m dt fn f) := by
  intro c hc hcn
  unfold setDerived at hc
  by_cases hh : hasCol m f = true
  · rw [if_pos hh] at hc
    rcases List.mem_map.mp hc with ⟨c0, hc0, rfl⟩
    by_cases h0 : (c0.name == m) = true
    · rw [if_pos h0, updCol_name] at hcn
      have h1 : c0.name = m := by simpa using h0
      rw [h1] at hcn
      exact absurd hcn hm
    · rw [if_neg h0] at hcn ⊢
      exact h c0 hc0 hcn
  · rw [if_neg hh] at hc
    rcases List.mem_append.mp hc with hc1 | hc2
    · exact h c hc1 hcn
    · rw [List.mem_singleton] at hc2
      subst hc2
      rw [newDerivedCol_name] at hcn
      exact absurd hcn hm

theorem colOk1_deriveChain (nm : String) (D : Dtype) (vfix : Value → Value)
    (tdv : List Value) (f : Frame)
    (h1 : nm ≠ "year") (h2 : nm ≠ "month") (h3 : nm ≠ "day")
    (h4 : nm ≠ "month_name") (h5 : nm ≠ "day_of_week")
    (h : ColOk1 nm D vfix f) : ColOk1 nm D vfix (deriveChain tdv f) := by
  unfold deriveChain
  apply colOk1_setDerived _ _ _ _ _ _ _ _ (Ne.symm h5)
  apply colOk1_setDerived _ _ _ _ _ _ _ _ (Ne.symm h4)
  apply colOk1_setDerived _ _ _ _ _ _ _ _ (Ne.symm h3)
  apply colOk1_setDerived _ _ _ _ _ _ _ _ (Ne.symm h2)
  exact colOk1_setDerived _ _ _ _ _ _ _ _ (Ne.symm h1) h

theorem colOk1_stripObjects (nm : String) (D : Dtype) (vfix : Value → Value)
    (f : Frame) (hD : D ≠ Dtype.object) (h : ColOk1 nm D vfix f) :
    ColOk1 nm D vfix (stripObjectsStage f) := by
  intro c hc hcn
  simp only [stripObjectsStage] at hc
  rcases List.mem_map.mp hc with ⟨c0, hc0, rfl⟩
  rw [stripColOp_name] at hcn
  have h0 := h c0 hc0 hcn
  rw [stripColOp_fix c0 (by intro hd; rw [h0.1] at hd; exact absurd hd hD)]
  exact h0

theorem colOk1_toNumericStage_other (nm : String) (D : Dtype) (vfix : Value → Value)
    (f : Frame) (h1 : nm ≠ "amount_spent") (h2 : nm ≠ "credit_limit")
    (h3 : nm ≠ "available_credit") (h : ColOk1 nm D vfix f) :
    ColOk1 nm D vfix (toNumericStage f) := by
  unfold toNumericStage
  rw [applyIfPresent_eq, applyIfPresent_eq, applyIfPresent_eq]
  apply colOk1_mapColsNamed_other nm D vfix "available_credit" toNumericCol _
    (Ne.symm h3) (fun c => rfl)
  apply colOk1_mapColsNamed_other nm D vfix "credit_limit" toNumericCol _
    (Ne.symm h2) (fun c => rfl)
  exact colOk1_mapColsNamed_other nm D vfix "amount_spent" toNumericCol _
    (Ne.symm h1) (fun c => rfl) h

theorem colOk1_subscriptionStage_other (nm : String) (D : Dtype) (vfix : Value → Value)
    (f : Frame) (h1 : nm ≠ "is_subscription") (h : ColOk1 nm D vfix f) :
    ColOk1 nm D vfix (subscriptionStage f) := by
  unfold subscriptionStage
  rw [applyIfPresent_eq]
  exact colOk1_mapColsNamed_other nm D vfix "is_subscription"
    (fun c => { c with dtype := Dtype.boolean, vals := c.vals.map boolNormVal }) _
    (Ne.symm h1) (fun c => rfl) h

theorem colOk1_td_toDatetimeStage (f : Frame) :
    ColOk1 "transaction_date" Dtype.datetime64 pdToDatetime (toDatetimeStage f) := by
  unfold toDatetimeStage
  rw [applyIfPresent_eq, applyIfPresent_eq]
  apply colOk1_mapColsNamed_other "transaction_date" Dtype.datetime64 pdToDatetime
    "posting_date" toDatetimeCol _ (by decide) (fun c => rfl)
  exact colOk1_mapColsNamed_self "transaction_date" Dtype.datetime64 pdToDatetime
    toDatetimeCol _ (fun c => rfl) (fun c => rfl) pdToDatetime_idem

theorem colOk1_pd_toDatetimeStage (f : Frame) :
    ColOk1 "posting_date" Dtype.datetime64 pdToDatetime (toDatetimeStage f) := by
  unfold toDatetimeStage
  rw [applyIfPresent_eq, applyIfPresent_eq]
  exact colOk1_mapColsNamed_self "posting_date" Dtype.datetime64 pdToDatetime
    toDatetimeCol _ (fun c => rfl) (fun c => rfl) pdToDatetime_idem

theorem colOk1_as_toNumericStage (f : Frame) :
    ColOk1 "amount_spent" Dtype.float64 pdToNumeric (toNumericStage f) := by
  unfold toNumericStage
  rw [applyIfPresent_eq, applyIfPresent_eq, applyIfPresent_eq]
  apply colOk1_mapColsNamed_other "amount_spent" Dtype.float64 pdToNumeric
    "available_credit" toNumericCol _ (by decide) (fun c => rfl)
  apply colOk1_mapColsNamed_other "amount_spent" Dtype.float64 pdToNumeric
    "credit_limit" toNumericCol _ (by decide) (fun c => rfl)
  exact colOk1_mapColsNamed_self "amount_spent" Dtype.float64 pdToNumeric
    toNumericCol _ (fun c => rfl) (fun c => rfl) pdToNumeric_idem

theorem colOk1_cl_toNumericStage (f : Frame) :
    ColOk1 "credit_limit" Dtype.float64 pdToNumeric (toNumericStage f) := by
  unfold toNumericStage
  rw [applyIfPresent_eq, applyIfPresent_eq, applyIfPresent_eq]
  apply colOk1_mapColsNamed_other "credit_limit" Dtype.float64 pdToNumeric
    "available_credit" toNumericCol _ (by decide) (fun c => rfl)
  exact colOk1_mapColsNamed_self "credit_limit" Dtype.float64 pdToNumeric
    toNumericCol _ (fun c => rfl) (fun c => rfl) pdToNumeric_idem

theorem colOk1_ac_toNumericStage (f : Frame) :
    ColOk1 "available_credit" Dtype.float64 pdToNumeric (toNumericStage f) := by
  unfold toNumericStage
  rw [applyIfPresent_eq, applyIfPresent_eq, applyIfPresent_eq]
  exact colOk1_mapColsNamed_self "available_credit" Dtype.float64 pdToNumeric
    toNumericCol _ (fun c => rfl) (fun c => rfl) pdToNumeric_idem

theorem colOk1_sub_subscriptionStage (f : Frame) :
    ColOk1 "is_subscription" Dtype.boolean boolNormVal (subscriptionStage f) := by
  unfold subscriptionStage
  rw [applyIfPresent_eq]
  exact colOk1_mapColsNamed_self "is_subscription" Dtype.boolean boolNormVal
    (fun c => { c with dtype := Dtype.boolean, vals := c.vals.map boolNormVal }) _
    (fun c => rfl) (fun c => rfl) boolNormVal_idem

theorem objOk_stripObjects (f : Frame) : ObjOk (stripObjectsStage f) := by
  intro c hc hd v hv
  simp only [stripObjectsStage] at hc
  rcases List.mem_map.mp hc with ⟨c0, hc0, rfl⟩
  by_cases h0 : (c0.dtype == Dtype.object) = true
  · rw [stripColOp_vals_obj c0 h0] at hv
    rcases List.mem_map.mp hv with ⟨w, hw, rfl⟩
    exact stripVal_idem w
  · rw [stripColOp_skip c0 (Bool.eq_false_iff.mpr h0)] at hd
    exact absurd hd (by simpa using h0)

theorem hasCol_stripObjects (m : String) (f : Frame) :
    hasCol m (stripObjectsStage f) = hasCol m f := by
  unfold hasCol stripObjectsStage
  exact any_map_pres _ _ (fun a => by rw [stripColOp_name]) f.cols

theorem hasCol_setDerived_self (nm : String) (tdv : List Value) (dt : Dtype)
    (fn : Nat → Nat → Nat → Value) (f : Frame) :
    hasCol nm (setDerived tdv nm dt fn f) = true := by
  by_cases hh : hasCol nm f = true
  · rw [setDerived_pos tdv nm dt fn f hh,
      hasCol_mapColsNamed nm nm (updCol tdv fn) (fun c => rfl)]
    exact hh
  · unfold setDerived
    rw [if_neg hh]
    unfold hasCol
    rw [List.any_append]
    have hnew : ((newDerivedCol tdv nm dt fn).name == nm) = true := by
      simp [newDerivedCol]
    simp [hnew]

theorem hasCol_deriveChain_year (tdv : List Value) (g : Frame) :
    hasCol "year" (deriveChain tdv g) = true := by
  unfold deriveChain
  rw [hasCol_setDerived_other "year" "day_of_week" (by decide),
    hasCol_setDerived_other "year" "month_name" (by decide),
    hasCol_setDerived_other "year" "day" (by decide),
    hasCol_setDerived_other "year" "month" (by decide)]
  exact hasCol_setDerived_self "year" tdv Dtype.int64n (fun y _ _ => Value.num y) g

theorem hasCol_deriveChain_month (tdv : List Value) (g : Frame) :
    hasCol "month" (deriveChain tdv g) = true := by
  unfold deriveChain
  rw [hasCol_setDerived_other "month" "day_of_week" (by decide),
    hasCol_setDerived_other "month" "month_name" (by decide),
    hasCol_setDerived_other "month" "day" (by decide)]
  exact hasCol_setDerived_self "month" tdv Dtype.int64n (fun _ m _ => Value.num m) _

theorem hasCol_deriveChain_day (tdv : List Value) (g : Frame) :
    hasCol "day" (deriveChain tdv g) = true := by
  unfold deriveChain
  rw [hasCol_setDerived_other "day" "day_of_week" (by decide),
    hasCol_setDerived_other "day" "month_name" (by decide)]
  exact hasCol_setDerived_self "day" tdv Dtype.int64n (fun _ _ d => Value.num d) _

theorem hasCol_deriveChain_month_name (tdv : List Value) (g : Frame) :
    hasCol "month_name" (deriveChain tdv g) = true := by
  unfold deriveChain
  rw [hasCol_setDerived_other "month_name" "day_of_week" (by decide)]
  exact hasCol_setDerived_self "month_name" tdv Dtype.object
    (fun _ m _ => Value.str (monthName m)) _

theorem hasCol_deriveChain_day_of_week (tdv : List Value) (g : Frame) :
    hasCol "day_of_week" (deriveChain tdv g) = true := by
  unfold deriveChain
  exact hasCol_setDerived_self "day_of_week" tdv Dtype.object
    (fun y m d => Value.str (dayOfWeekName y m d)) _

/-! ## C4: shape of the derived columns and establishment of `DerOk` -/

theorem setDerived_shape (tdv : List Value) (nm : String) (dt : Dtype)
    (fn : Nat → Nat → Nat → Value) (f : Frame) :
    ∀ c ∈ (setDerived tdv nm dt fn f).cols, c.name = nm →
      (∃ c0, c = updCol tdv fn c0) ∨ c = newDerivedCol tdv nm dt fn := by
  intro c hc hcn
  unfold setDerived at hc
  by_cases hh : hasCol nm f = true
  · rw [if_pos hh] at hc
    rcases List.mem_map.mp hc with ⟨c0, hc0, rfl⟩
    by_cases h0 : (c0.name == nm) = true
    · rw [if_pos h0]
      exact Or.inl ⟨c0, rfl⟩
    · rw [if_neg h0] at hcn
      exact absurd hcn (by simpa using h0)
  · rw [if_neg hh] at hc
    rcases List.mem_append.mp hc with hc1 | hc2
    · have hcol : hasCol nm f = true := List.any_eq_true.mpr ⟨c, hc1, by simp [hcn]⟩
      exact absurd hcol hh
    · rw [List.mem_singleton] at hc2
      subst hc2
      exact Or.inr rfl

theorem setDerived_shape_pres (tdv : List Value) (nm m : String) (dt : Dtype)
    (fn2 : Nat → Nat → Nat → Value) (f : Frame) (hm : m ≠ nm) (P : Col → Prop)
    (h : ∀ c ∈ f.cols, c.name = nm → P c) :
    ∀ c ∈ (setDerived tdv m dt fn2 f).cols, c.name = nm → P c := by
  intro c hc hcn
  unfold setDerived at hc
  by_cases hh : hasCol m f = true
  · rw [if_pos hh] at hc
    rcases List.mem_map.mp hc with ⟨c0, hc0, rfl⟩
    by_cases h0 : (c0.name == m) = true
    · rw [if_pos h0, updCol_name] at hcn
      have h1 : c0.name = m := by simpa using h0
      rw [h1] at hcn
      exact absurd hcn hm
    · rw [if_neg h0] at hcn ⊢
      exact h c0 hc0 hcn
  · rw [if_neg hh] at hc
    rcases List.mem_append.mp hc with hc1 | hc2
    · exact h c hc1 hcn
    · rw [List.mem_singleton] at hc2
      subst hc2
      rw [newDerivedCol_name] at hcn
      exact absurd hcn hm

theorem deriveChain_shape_year (tdv : List Value) (g : Frame) :
    ∀ c ∈ (deriveChain tdv g).cols, c.name = "year" →
      (∃ c0, c = updCol tdv (fun y _ _ => Value.num y) c0) ∨
      c = newDerivedCol tdv "year" Dtype.int64n (fun y _ _ => Value.num y) := by
  unfold deriveChain
  apply setDerived_shape_pres _ _ _ _ _ _ (by decide)
  apply setDerived_shape_pres _ _ _ _ _ _ (by decide)
  apply setDerived_shape_pres _ _ _ _ _ _ (by decide)
  apply setDerived_shape_pres _ _ _ _ _ _ (by decide)
  exact setDerived_shape tdv "year" Dtype.int64n (fun y _ _ => Value.num y) g

theorem deriveChain_shape_month (tdv : List Value) (g : Frame) :
    ∀ c ∈ (deriveChain tdv g).cols, c.name = "month" →
      (∃ c0, c = updCol tdv (fun _ m _ => Value.num m) c0) ∨
      c = newDerivedCol tdv "month" Dtype.int64n (fun _ m _ => Value.num m) := by
  unfold deriveChain
  apply setDerived_shape_pres _ _ _ _ _ _ (by decide)
  apply setDerived_shape_pres _ _ _ _ _ _ (by decide)
  apply setDerived_shape_pres _ _ _ _ _ _ (by decide)
  exact setDerived_shape tdv "month" Dtype.int64n (fun _ m _ => Value.num m) _

theorem deriveChain_shape_day (tdv : List Value) (g : Frame) :
    ∀ c ∈ (deriveChain tdv g).cols, c.name = "day" →
      (∃ c0, c = updCol tdv (fun _ _ d => Value.num d) c0) ∨
      c = newDerivedCol tdv "day" Dtype.int64n (fun _ _ d => Value.num d) := by
  unfold deriveChain
  apply setDerived_shape_pres _ _ _ _ _ _ (by decide)
  apply setDerived_shape_pres _ _ _ _ _ _ (by decide)
  exact setDerived_shape tdv "day" Dtype.int64n (fun _ _ d => Value.num d) _

theorem deriveChain_shape_month_name (tdv : List Value) (g : Frame) :
    ∀ c ∈ (deriveChain tdv g).cols, c.name = "month_name" →
      (∃ c0, c = updCol tdv (fun _ m _ => Value.str (monthName m)) c0) ∨
      c = newDerivedCol tdv "month_name" Dtype.object
        (fun _ m _ => Value.str (monthName m)) := by
  unfold deriveChain
  apply setDerived_shape_pres _ _ _ _ _ _ (by decide)
  exact setDerived_shape tdv "month_name" Dtype.object
    (fun _ m _ => Value.str (monthName m)) _

theorem deriveChain_shape_day_of_week (tdv : List Value) (g : Frame) :
    ∀ c ∈ (deriveChain tdv g).cols, c.name = "day_of_week" →
      (∃ c0, c = updCol tdv (fun y m d => Value.str (dayOfWeekName y m d)) c0) ∨
      c = newDerivedCol tdv "day_of_week" Dtype.object
        (fun y m d => Value.str (dayOfWeekName y m d)) := by
  unfold deriveChain
  exact setDerived_shape tdv "day_of_week" Dtype.object
    (fun y m d => Value.str (dayOfWeekName y m d)) _

theorem derOk_establish (g : Frame) (ctd : Col)
    (hctd : findCol "transaction_date" g = some ctd)
    (hdt : ctd.dtype = Dtype.datetime64) :
    DerOk (stripObjectsStage (deriveChain ctd.vals g)) := by
  intro tc htc hdtc
  have h1 : findCol "transaction_date" (stripObjectsStage (deriveChain ctd.vals g)) =
      some ctd := by
    rw [findCol_stripObjects, findCol_deriveChain_other "transaction_date" ctd.vals g
      (by decide) (by decide) (by decide) (by decide) (by decide), hctd,
      Option.map_some', stripColOp_datetime ctd hdt]
  rw [h1] at htc
  injection htc with he
  subst he
  constructor
  · refine ⟨?_, ?_, ?_, ?_, ?_⟩
    · rw [hasCol_stripObjects]
      exact hasCol_deriveChain_year ctd.vals g
    · rw [hasCol_stripObjects]
      exact hasCol_deriveChain_month ctd.vals g
    · rw [hasCol_stripObjects]
      exact hasCol_deriveChain_day ctd.vals g
    · rw [hasCol_stripObjects]
      exact hasCol_deriveChain_month_name ctd.vals g
    · rw [hasCol_stripObjects]
      exact hasCol_deriveChain_day_of_week ctd.vals g
  · intro c hc
    simp only [stripObjectsStage] at hc
    rcases List.mem_map.mp hc with ⟨c2, hc2, rfl⟩
    refine ⟨?_, ?_, ?_, ?_, ?_⟩
    · intro hn
      rw [stripColOp_name] at hn
      rcases deriveChain_shape_year ctd.vals g c2 hc2 hn with ⟨c0, rfl⟩ | rfl
      · exact strip_upd_round_upd ctd.vals _ c0
      · exact strip_upd_round_new ctd.vals "year" Dtype.int64n _
    · intro hn
      rw [stripColOp_name] at hn
      rcases deriveChain_shape_month ctd.vals g c2 hc2 hn with ⟨c0, rfl⟩ | rfl
      · exact strip_upd_round_upd ctd.vals _ c0
      · exact strip_upd_round_new ctd.vals "month" Dtype.int64n _
    · intro hn
      rw [stripColOp_name] at hn
      rcases deriveChain_shape_day ctd.vals g c2 hc2 hn with ⟨c0, rfl⟩ | rfl
      · exact strip_upd_round_upd ctd.vals _ c0
      · exact strip_upd_round_new ctd.vals "day" Dtype.int64n _
    · intro hn
      rw [stripColOp_name] at hn
      rcases deriveChain_shape_month_name ctd.vals g c2 hc2 hn with ⟨c0, rfl⟩ | rfl
      · exact strip_upd_round_upd ctd.vals _ c0
      · exact strip_upd_round_new ctd.vals "month_name" Dtype.object _
    · intro hn
      rw [stripColOp_name] at hn
      rcases deriveChain_shape_day_of_week ctd.vals g c2 hc2 hn with ⟨c0, rfl⟩ | rfl
      · exact strip_upd_round_upd ctd.vals _ c0
      · exact strip_upd_round_new ctd.vals "day_of_week" Dtype.object _

theorem normalized_stages (f : Frame) :
    Normalized (stripObjectsStage (deriveStage (subscriptionStage
      (toNumericStage (toDatetimeStage (stripColNames f)))))) := by
  have hNF : NameFixed (subscriptionStage (toNumericStage
      (toDatetimeStage (stripColNames f)))) :=
    nameFixed_subscriptionStage _ (nameFixed_toNumericStage _
      (nameFixed_toDatetimeStage _ (nameFixed_stripColNames f)))
  have hTD : ColOk1 "transaction_date" Dtype.datetime64 pdToDatetime
      (subscriptionStage (toNumericStage (toDatetimeStage (stripColNames f)))) :=
    colOk1_subscriptionStage_other _ _ _ _ (by decide)
      (colOk1_toNumericStage_other _ _ _ _ (by decide) (by decide) (by decide)
        (colOk1_td_toDatetimeStage _))
  have hPD : ColOk1 "posting_date" Dtype.datetime64 pdToDatetime
      (subscriptionStage (toNumericStage (toDatetimeStage (stripColNames f)))) :=
    colOk1_subscriptionStage_other _ _ _ _ (by decide)
      (colOk1_toNumericStage_other _ _ _ _ (by decide) (by decide) (by decide)
        (colOk1_pd_toDatetimeStage _))
  have hAS : ColOk1 "amount_spent" Dtype.float64 pdToNumeric
      (subscriptionStage (toNumericStage (toDatetimeStage (stripColNames f)))) :=
    colOk1_subscriptionStage_other _ _ _ _ (by decide) (colOk1_as_toNumericStage _)
  have hCL : ColOk1 "credit_limit" Dtype.float64 pdToNumeric
      (subscriptionStage (toNumericStage (toDatetimeStage (stripColNames f)))) :=
    colOk1_subscriptionStage_other _ _ _ _ (by decide) (colOk1_cl_toNumericStage _)
  have hAC : ColOk1 "available_credit" Dtype.float64 pdToNumeric
      (subscriptionStage (toNumericStage (toDatetimeStage (stripColNames f)))) :=
    colOk1_subscriptionStage_other _ _ _ _ (by decide) (colOk1_ac_toNumericStage _)
  have hSUB : ColOk1 "is_subscription" Dtype.boolean boolNormVal
      (subscriptionStage (toNumericStage (toDatetimeStage (stripColNames f)))) :=
    colOk1_sub_subscriptionStage _
  cases hfc : findCol "transaction_date" (subscriptionStage (toNumericStage
      (toDatetimeStage (stripColNames f)))) with
  | none =>
    rw [deriveStage_none _ hfc]
    refine ⟨nameFixed_stripObjects _ hNF,
      colOk1_stripObjects _ _ _ _ (by decide) hTD,
      colOk1_stripObjects _ _ _ _ (by decide) hPD,
      colOk1_stripObjects _ _ _ _ (by decide) hAS,
      colOk1_stripObjects _ _ _ _ (by decide) hCL,
      colOk1_stripObjects _ _ _ _ (by decide) hAC,
      colOk1_stripObjects _ _ _ _ (by decide) hSUB,
      objOk_stripObjects _, ?_⟩
    intro tc htc
    rw [findCol_stripObjects, hfc] at htc
    exact absurd htc (by simp)
  | some tc =>
    have hfc2 := hfc
    unfold findCol at hfc2
    have htcm := List.mem_of_find?_eq_some hfc2
    have htcn : tc.name = "transaction_date" := findCol_name _ _ tc hfc
    have hdt : tc.dtype = Dtype.datetime64 := (hTD tc htcm htcn).1
    rw [deriveStage_some _ tc hfc hdt]
    exact ⟨nameFixed_stripObjects _ (nameFixed_deriveChain tc.vals _ hNF),
      colOk1_stripObjects _ _ _ _ (by decide)
        (colOk1_deriveChain _ _ _ tc.vals _ (by decide) (by decide) (by decide)
          (by decide) (by decide) hTD),
      colOk1_stripObjects _ _ _ _ (by decide)
        (colOk1_deriveChain _ _ _ tc.vals _ (by decide) (by decide) (by decide)
          (by decide) (by decide) hPD),
      colOk1_stripObjects _ _ _ _ (by decide)
        (colOk1_deriveChain _ _ _ tc.vals _ (by decide) (by decide) (by decide)
          (by decide) (by decide) hAS),
      colOk1_stripObjects _ _ _ _ (by decide)
        (colOk1_deriveChain _ _ _ tc.vals _ (by decide) (by decide) (by decide)
          (by decide) (by decide) hCL),
      colOk1_stripObjects _ _ _ _ (by decide)
        (colOk1_deriveChain _ _ _ tc.vals _ (by decide) (by decide) (by decide)
          (by decide) (by decide) hAC),
      colOk1_stripObjects _ _ _ _ (by decide)
        (colOk1_deriveChain _ _ _ tc.vals _ (by decide) (by decide) (by decide)
          (by decide) (by decide) hSUB),
      objOk_stripObjects _,
      derOk_establish _ tc hfc hdt⟩

/-- C4: the Type Normalizer is idempotent — for every batch of records,
applying `apply_data_types` to its own output returns that output exactly
(normalizing twice equals normalizing once). -/
theorem apply_data_types_idempotent (f : Frame) :
    apply_data_types (apply_data_types f) = apply_data_types f := by
  by_cases he : frameEmpty f = true
  · have h1 : apply_data_types f = f := by
      unfold apply_data_types
      rw [if_pos he]
    rw [h1]
    exact h1
  · have hstage : apply_data_types f = stripObjectsStage (deriveStage (subscriptionStage
        (toNumericStage (toDatetimeStage (stripColNames f))))) := by
      unfold apply_data_types
      rw [if_neg he]
    rw [hstage]
    exact normalized_fix _ (normalized_stages f)

end BSA
